import Mathlib

set_option maxHeartbeats 1000000
set_option maxRecDepth 4000

/-- Shallow embedding of the use-param-lustig query-string codec and
parameter pipeline (src/internals/query-string-converter.ts and
src/internals/query-param-core.ts).  JavaScript runtime values are modelled
by `JSVal`: numbers are restricted to integers (every number the library
manipulates structurally is integral), `undefined` is the dedicated
constructor `undef`, and arrays carry their element slots (`none` models a
hole) together with the extra non-index own properties JavaScript lets one
attach to an array.  Property access is own-property access: the prototype
chain is outside the model.  The code runs in strict mode (TypeScript emits
modules in strict mode), so assigning a property on a primitive is a
TypeError. -/
inductive JSVal where
  | str (s : String)
  | intNum (n : Int)
  | boolean (b : Bool)
  | null
  | undef
  | arr (elems : List (Option JSVal)) (props : List (String × JSVal))
  | obj (fields : List (String × JSVal))
deriving Repr, Inhabited

/-- JavaScript truthiness for the values of the model. -/
def JSVal.truthy : JSVal → Bool
  | .str s => !s.isEmpty
  | .intNum n => n != 0
  | .boolean b => b
  | .null => false
  | .undef => false
  | .arr _ _ => true
  | .obj _ => true

/-- Truthiness of a possibly-absent property (`none` is `undefined`,
which is falsy). -/
def truthyOpt : Option JSVal → Bool
  | none => false
  | some v => v.truthy

/-- Own-property lookup in an insertion-ordered field list. -/
def lookupField : List (String × JSVal) → String → Option JSVal
  | [], _ => none
  | (k, v) :: rest, key => if k = key then some v else lookupField rest key

/-- JavaScript property write on an ordinary object: an existing key is
updated in place (keeping its position), a new key is appended. -/
def updateField : List (String × JSVal) → String → JSVal → List (String × JSVal)
  | [], key, v => [(key, v)]
  | (k, w) :: rest, key, v =>
      if k = key then (k, v) :: rest else (k, w) :: updateField rest key v

/-- The decimal digit character for `n < 10`. -/
def digitChar (n : Nat) : Char := Char.ofNat (48 + n)

/-- Decimal digits of `n`, by structural recursion on a fuel that the
wrapper instantiates large enough (`n` itself dominates the digit
count). -/
def decDigits : Nat → Nat → List Char
  | 0, _ => []
  | fuel + 1, n =>
    if n < 10 then [digitChar n]
    else decDigits fuel (n / 10) ++ [digitChar (n % 10)]

/-- Decimal representation of a natural number (the JavaScript
`ToString` of an integral non-negative number). -/
def decRepr (n : Nat) : String := String.mk (decDigits (n + 1) n)

/-- JavaScript `ToString` of an integral number. -/
def intRepr (n : Int) : String :=
  if n < 0 then "-" ++ decRepr n.natAbs else decRepr n.natAbs

/-- Numeric value of a list of decimal digit characters. -/
def digitsVal (l : List Char) : Nat :=
  l.foldl (fun a c => a * 10 + (c.toNat - 48)) 0

/-- Whether a character list is the canonical form of a JavaScript array
index (decimal, no leading zero except "0" itself, below 2^32 - 1), and
its value. -/
def canonIndex (l : List Char) : Option Nat :=
  match l with
  | [] => none
  | [c] => if c.isDigit then some (c.toNat - 48) else none
  | c :: rest =>
      if c.isDigit && decide (c ≠ digitChar 0) && rest.all Char.isDigit then
        let v := digitsVal (c :: rest)
        if v < 4294967295 then some v else none
      else none

def canonIndexS (s : String) : Option Nat := canonIndex s.data

/-- String length as JavaScript sees it: UTF-16 code units. -/
def utf16Len (s : String) : Nat :=
  s.data.foldl (fun a c => a + (if c.toNat < 65536 then 1 else 2)) 0

/-- JavaScript string whitespace for `Number()` trimming (the common code
points; rare Unicode space separators are outside the model). -/
def jsWhitespace (c : Char) : Bool :=
  c = ' ' || c = '\t' || c = '\n' || c = '\r' ||
  c.toNat = 11 || c.toNat = 12 || c.toNat = 160 || c.toNat = 65279

def jsTrim (l : List Char) : List Char :=
  ((l.dropWhile jsWhitespace).reverse.dropWhile jsWhitespace).reverse

/-- The result of JavaScript `ToNumber` on the inputs the model meets:
NaN, a signed infinity, or the exact rational `m * 10 ^ e`. -/
inductive JsNum where
  | nan
  | infinite (neg : Bool)
  | fin (m : Int) (e : Int)
deriving Repr, DecidableEq

def hexDigitVal (c : Char) : Option Nat :=
  if c.isDigit then some (c.toNat - 48)
  else if 97 ≤ c.toNat && c.toNat ≤ 102 then some (c.toNat - 87)
  else if 65 ≤ c.toNat && c.toNat ≤ 70 then some (c.toNat - 55)
  else none

/-- Exponent part of a decimal literal (`[eE] [+-]? digits+`), which must
consume the whole remainder; `some 0` on empty input. -/
def parseExpPart : List Char → Option Int
  | [] => some 0
  | c :: rest =>
    if c = 'e' || c = 'E' then
      let (sgn, rest2) :=
        match rest with
        | '+' :: r => ((1 : Int), r)
        | '-' :: r => ((-1 : Int), r)
        | _ => ((1 : Int), rest)
      if rest2 ≠ [] && rest2.all Char.isDigit then some (sgn * digitsVal rest2)
      else none
    else none

/-- Unsigned decimal literal `digits* ('.' digits*)? exponent?` occupying
the whole input; at least one mantissa digit is required. -/
def parseDecimalBody (l : List Char) : JsNum :=
  let (ip, r1) := l.span Char.isDigit
  let (fp, r2) :=
    match r1 with
    | c :: rest => if c = '.' then rest.span Char.isDigit else ([], r1)
    | [] => ([], r1)
  if (ip ++ fp).isEmpty then .nan
  else
    match parseExpPart r2 with
    | some e => .fin (Int.ofNat (digitsVal (ip ++ fp))) (e - fp.length)
    | none => .nan

def parseSignedDecimal (l : List Char) : JsNum :=
  let (neg, body) :=
    match l with
    | '+' :: r => (false, r)
    | '-' :: r => (true, r)
    | _ => (false, l)
  if body = ['I', 'n', 'f', 'i', 'n', 'i', 't', 'y'] then .infinite neg
  else
    match parseDecimalBody body with
    | .fin m e => .fin (if neg then -m else m) e
    | r => r

def isOctDigit (c : Char) : Bool := 48 ≤ c.toNat && c.toNat ≤ 55
def isBinDigit (c : Char) : Bool := c = '0' || c = '1'

/-- JavaScript `Number(string)` on a trimmed character list. -/
def parseNumBody (l : List Char) : JsNum :=
  match l with
  | [] => .fin 0 0
  | '0' :: c :: rest =>
    if c = 'x' || c = 'X' then
      if rest ≠ [] && rest.all (fun d => (hexDigitVal d).isSome) then
        .fin (Int.ofNat (rest.foldl (fun a d => a * 16 + (hexDigitVal d).getD 0) 0)) 0
      else .nan
    else if c = 'o' || c = 'O' then
      if rest ≠ [] && rest.all isOctDigit then
        .fin (Int.ofNat (rest.foldl (fun a d => a * 8 + (d.toNat - 48)) 0)) 0
      else .nan
    else if c = 'b' || c = 'B' then
      if rest ≠ [] && rest.all isBinDigit then
        .fin (Int.ofNat (rest.foldl (fun a d => a * 2 + (d.toNat - 48)) 0)) 0
      else .nan
    else parseSignedDecimal l
  | _ => parseSignedDecimal l

def jsStringToNum (s : String) : JsNum := parseNumBody (jsTrim s.data)

/-- The `!isNaN(Number(nextSegment))` test used by queryStringToObject to
pick between a fresh array and a fresh object. -/
def jsNumberNotNaN (s : String) : Bool := jsStringToNum s ≠ JsNum.nan

/-- Exact integer value of a `JsNum`, when it is finite and integral. -/
def jsNumToInt : JsNum → Option Int
  | .fin m e =>
      if 0 ≤ e then some (m * (10 : Int) ^ e.toNat)
      else
        let d := (10 : Int) ^ (-e).toNat
        if m % d = 0 then some (m / d) else none
  | _ => none

mutual
/-- ToString of a value as `Array.prototype.join` sees it, restricted to
the model. -/
def jsPrimString : JSVal → String
  | .str s => s
  | .intNum n => intRepr n
  | .boolean b => cond b "true" "false"
  | .null => "null"
  | .undef => "undefined"
  | .obj _ => "[object Object]"
  | .arr elems _ => jsArrJoin elems
termination_by structural v => v

def jsArrJoin : List (Option JSVal) → String
  | [] => ""
  | [e] => jsJoinElem e
  | e :: rest => jsJoinElem e ++ "," ++ jsArrJoin rest
termination_by structural l => l

def jsJoinElem : Option JSVal → String
  | none => ""
  | some .null => ""
  | some .undef => ""
  | some v => jsPrimString v
termination_by structural e => e
end

/-- JavaScript ToNumber, as needed for `array.length = value` writes. -/
def jsToNumber : JSVal → JsNum
  | .str s => jsStringToNum s
  | .intNum n => .fin n 0
  | .boolean b => .fin (if b then 1 else 0) 0
  | .null => .fin 0 0
  | .undef => .nan
  | .obj _ => .nan
  | .arr elems _ => jsStringToNum (jsArrJoin elems)

/-- A valid array length for an assigned value: ToNumber must be an
integer in [0, 2^32). -/
def jsLengthValue (v : JSVal) : Option Nat :=
  match jsNumToInt (jsToNumber v) with
  | some n => if 0 ≤ n ∧ n < 4294967296 then some n.toNat else none
  | none => none

/-- Array element write at index `i`, extending with holes if needed. -/
def listSetExtend (elems : List (Option JSVal)) (i : Nat) (v : JSVal) :
    List (Option JSVal) :=
  if i < elems.length then elems.set i (some v)
  else elems ++ List.replicate (i - elems.length) none ++ [some v]

/-- Resize from an `array.length = n` write. -/
def listResize (elems : List (Option JSVal)) (n : Nat) : List (Option JSVal) :=
  if n ≤ elems.length then elems.take n
  else elems ++ List.replicate (n - elems.length) none

/-- JavaScript own-property read; `none` is `undefined`. -/
def jsRead (cur : JSVal) (k : String) : Option JSVal :=
  match cur with
  | .obj fields => lookupField fields k
  | .arr elems props =>
      match canonIndexS k with
      | some i => if h : i < elems.length then elems.get ⟨i, h⟩ else none
      | none =>
          if k = "length" then some (.intNum elems.length)
          else lookupField props k
  | .str s =>
      if k = "length" then some (.intNum (utf16Len s))
      else
        match canonIndexS k with
        | some i =>
            if h : i < s.data.length then some (.str (String.mk [s.data.get ⟨i, h⟩]))
            else none
        | none => none
  | _ => none

/-- JavaScript own-property write in strict mode.  Writing on a primitive
is a TypeError; `array.length = v` resizes when `v` converts to a valid
length and is a RangeError otherwise. -/
def jsWrite (cur : JSVal) (k : String) (v : JSVal) : Except String JSVal :=
  match cur with
  | .obj fields => .ok (.obj (updateField fields k v))
  | .arr elems props =>
      match canonIndexS k with
      | some i => .ok (.arr (listSetExtend elems i v) props)
      | none =>
          if k = "length" then
            match jsLengthValue v with
            | some n => .ok (.arr (listResize elems n) props)
            | none => .error "RangeError"
          else .ok (.arr elems (updateField props k v))
  | _ => .error "TypeError"

/-- UTF-8 encoding of a Unicode scalar value. -/
def utf8Bytes (c : Char) : List Nat :=
  let n := c.toNat
  if n < 128 then [n]
  else if n < 2048 then [192 + n / 64, 128 + n % 64]
  else if n < 65536 then [224 + n / 4096, 128 + n / 64 % 64, 128 + n % 64]
  else [240 + n / 262144, 128 + n / 4096 % 64, 128 + n / 64 % 64, 128 + n % 64]

def hexCharUpper (n : Nat) : Char :=
  if n < 10 then Char.ofNat (48 + n) else Char.ofNat (55 + n)

def pctByte (b : Nat) : List Char := ['%', hexCharUpper (b / 16), hexCharUpper (b % 16)]

/-- The characters encodeURIComponent leaves unescaped. -/
def uriUnreserved (c : Char) : Bool :=
  c.isAlpha || c.isDigit || c = '-' || c = '_' || c = '.' ||
  c = '!' || c = '~' || c = Char.ofNat 42 || c = Char.ofNat 39 ||
  c = '(' || c = ')'

def encChar (c : Char) : List Char :=
  if uriUnreserved c then [c] else (utf8Bytes c).foldr (fun b acc => pctByte b ++ acc) []

def encodeURIComponentList (l : List Char) : List Char :=
  l.foldr (fun c acc => encChar c ++ acc) []

def jsEncodeURIComponent (s : String) : String := String.mk (encodeURIComponentList s.data)

mutual
/-- First pass of decodeURIComponent: each `%hh` escape (two hex digits
required, URIError otherwise) becomes a byte unit, every other character
a raw unit. -/
def pctUnits : List Char → Except String (List (Sum Char Nat))
  | [] => .ok []
  | c :: rest =>
    if c = '%' then pctEsc rest
    else (pctUnits rest).map (fun us => .inl c :: us)
termination_by structural l => l

/-- The two hex digits demanded right after a `%`. -/
def pctEsc : List Char → Except String (List (Sum Char Nat))
  | h1 :: h2 :: rest2 =>
    (match hexDigitVal h1, hexDigitVal h2 with
     | some a, some b => (pctUnits rest2).map (fun us => .inr (a * 16 + b) :: us)
     | _, _ => .error "URIError")
  | _ => .error "URIError"
termination_by structural l => l
end

mutual
/-- Second pass of decodeURIComponent: a raw unit stands for itself; a
byte unit below 0x80 stands alone; other leading bytes demand their
exact count of escaped continuation bytes (a raw character in a
continuation position is a URIError, exactly as in the ECMA Decode
algorithm), and the decoded code point must be in range for its length:
no overlong forms, no surrogates, nothing above 0x10FFFF. -/
def unitsDecode : List (Sum Char Nat) → Except String (List Char)
  | [] => .ok []
  | .inl c :: rest => (unitsDecode rest).map (fun cs => c :: cs)
  | .inr b :: rest =>
    if b < 128 then (unitsDecode rest).map (fun cs => Char.ofNat b :: cs)
    else if b < 192 then .error "URIError"
    else if b < 224 then unitsDecode2 b rest
    else if b < 240 then unitsDecode3 b rest
    else if b < 248 then unitsDecode4 b rest
    else .error "URIError"
termination_by structural l => l

def unitsDecode2 (b : Nat) : List (Sum Char Nat) → Except String (List Char)
  | .inr b2 :: rest2 =>
      if 128 ≤ b2 && b2 < 192 then
        if 128 ≤ (b - 192) * 64 + (b2 - 128) then
          (unitsDecode rest2).map (fun cs => Char.ofNat ((b - 192) * 64 + (b2 - 128)) :: cs)
        else .error "URIError"
      else .error "URIError"
  | _ => .error "URIError"
termination_by structural l => l

def unitsDecode3 (b : Nat) : List (Sum Char Nat) → Except String (List Char)
  | .inr b2 :: .inr b3 :: rest2 =>
      if (128 ≤ b2 && b2 < 192) && (128 ≤ b3 && b3 < 192) then
        if 2048 ≤ (b - 224) * 4096 + (b2 - 128) * 64 + (b3 - 128) &&
           !(55296 ≤ (b - 224) * 4096 + (b2 - 128) * 64 + (b3 - 128) &&
             (b - 224) * 4096 + (b2 - 128) * 64 + (b3 - 128) ≤ 57343) then
          (unitsDecode rest2).map
            (fun cs => Char.ofNat ((b - 224) * 4096 + (b2 - 128) * 64 + (b3 - 128)) :: cs)
        else .error "URIError"
      else .error "URIError"
  | _ => .error "URIError"
termination_by structural l => l

def unitsDecode4 (b : Nat) : List (Sum Char Nat) → Except String (List Char)
  | .inr b2 :: .inr b3 :: .inr b4 :: rest2 =>
      if ((128 ≤ b2 && b2 < 192) && (128 ≤ b3 && b3 < 192)) &&
         (128 ≤ b4 && b4 < 192) then
        if 65536 ≤ (b - 240) * 262144 + (b2 - 128) * 4096 + (b3 - 128) * 64 + (b4 - 128) &&
           (b - 240) * 262144 + (b2 - 128) * 4096 + (b3 - 128) * 64 + (b4 - 128) < 1114112 then
          (unitsDecode rest2).map
            (fun cs =>
              Char.ofNat ((b - 240) * 262144 + (b2 - 128) * 4096 + (b3 - 128) * 64 + (b4 - 128)) :: cs)
        else .error "URIError"
      else .error "URIError"
  | _ => .error "URIError"
termination_by structural l => l
end

/-- decodeURIComponent on a character list; `.error` models URIError. -/
def pctDecodeList (l : List Char) : Except String (List Char) :=
  pctUnits l >>= unitsDecode

/-- decodeURIComponent; `.error` models a thrown URIError. -/
def jsDecodeURIComponent (s : String) : Except String String := do
  let l ← pctDecodeList s.data
  .ok (String.mk l)

def isBracketChar (c : Char) : Bool := c = '[' || c = ']'

mutual
/-- The key tokenizer: JavaScript `key.match` with the global pattern
whose first alternative is a maximal run of non-bracket characters and
whose second is a complete bracket group (brackets kept in the token),
positions where neither alternative matches being skipped.  It is
implemented as one left-to-right scan: `]` outside a group is skipped;
`[` opens a candidate group, which becomes the token `[run]` when a `]`
arrives before any `[` or the end of input, and whose run is otherwise
re-read as a bare token - exactly what the regex engine produces by
failing at the `[` and retrying from the following position. -/
def tokScan : List Char → List (List Char)
  | [] => []
  | c :: cs =>
    if c = ']' then tokScan cs
    else if c = '[' then tokGroup [] cs
    else tokBare [c] cs
termination_by structural l => l

/-- Scanning inside a bare token; `acc` holds its characters reversed. -/
def tokBare (acc : List Char) : List Char → List (List Char)
  | [] => [acc.reverse]
  | c :: cs =>
    if c = ']' then acc.reverse :: tokScan cs
    else if c = '[' then acc.reverse :: tokGroup [] cs
    else tokBare (c :: acc) cs
termination_by structural l => l

/-- Scanning inside a candidate bracket group; `acc` holds the run
reversed.  On `[` or end of input the candidate fails and its run is
emitted as the bare token the regex would match there instead. -/
def tokGroup (acc : List Char) : List Char → List (List Char)
  | [] => if acc.isEmpty then [] else [acc.reverse]
  | c :: cs =>
    if c = ']' then ('[' :: (acc.reverse ++ [']'])) :: tokScan cs
    else if c = '[' then
      if acc.isEmpty then tokGroup [] cs
      else acc.reverse :: tokGroup [] cs
    else tokGroup (c :: acc) cs
termination_by structural l => l
end

def tokenizeKey (l : List Char) : List (List Char) := tokScan l

/-- `keySegment.replace` removing every bracket character. -/
def cleanSeg (seg : List Char) : List Char := seg.filter (fun c => !isBracketChar c)

/-- JavaScript `String.prototype.split` with a one-character separator. -/
def splitOnChar (sep : Char) : List Char → List (List Char)
  | [] => [[]]
  | c :: rest =>
    let r := splitOnChar sep rest
    if c = sep then [] :: r
    else
      match r with
      | [] => [[c]]
      | h :: t => (c :: h) :: t

/-- The JavaScript value written at the terminal segment: the decoded
value string, or `undefined` when the pair had no "=". -/
def terminalVal : Option String → JSVal
  | some s => .str s
  | none => JSVal.undef

/-- The tree-assembly walk of queryStringToObject for one key: segments
are consumed left to right; the terminal segment assigns the value; an
intermediate segment walks into the existing property when that property
is truthy and otherwise overwrites it with a fresh container, an array
exactly when the next cleaned segment is numeric (`!isNaN(Number(s))`).
In-place mutation of the nested structure is modelled by writing the
updated child back at its key; the built tree is alias-free, so this is
exact.  After creating a container the code re-reads the property
(`currentLevel = currentLevel[cleanKey]`); when an array length write
leaves no readable property the walk would continue on `undefined` and
the next access is the strict-mode TypeError it would raise. -/
def assignPath : JSVal → List (List Char) → Option String → Except String JSVal
  | cur, [], _ => .ok cur
  | cur, [seg], v => jsWrite cur (String.mk (cleanSeg seg)) (terminalVal v)
  | cur, seg :: seg2 :: rest, v =>
      let k := String.mk (cleanSeg seg)
      match jsRead cur k with
      | some existing =>
          if existing.truthy then do
            let child ← assignPath existing (seg2 :: rest) v
            jsWrite cur k child
          else do
            let fresh := if jsNumberNotNaN (String.mk (cleanSeg seg2)) then
              JSVal.arr [] [] else JSVal.obj []
            let cur1 ← jsWrite cur k fresh
            match jsRead cur1 k with
            | some cur2 => do
                let child ← assignPath cur2 (seg2 :: rest) v
                jsWrite cur1 k child
            | none => .error "TypeError"
      | none => do
          let fresh := if jsNumberNotNaN (String.mk (cleanSeg seg2)) then
            JSVal.arr [] [] else JSVal.obj []
          let cur1 ← jsWrite cur k fresh
          match jsRead cur1 k with
          | some cur2 => do
              let child ← assignPath cur2 (seg2 :: rest) v
              jsWrite cur1 k child
          | none => .error "TypeError"

/-- Processing of one `&`-separated pair in queryStringToObject:
`pair.split("=")` splits at every "=", every part is percent-decoded (a
URIError in any part propagates), and the first two parts become key and
value (a missing second part leaves the value `undefined`).  A pair with
an empty key is dropped, as is a key in which the tokenizer finds no
token (`match` returned null). -/
def decodeParts : List (List Char) → Except String (List (List Char))
  | [] => .ok []
  | p :: rest => do
      let d ← pctDecodeList p
      let ds ← decodeParts rest
      .ok (d :: ds)

def processPair (root : JSVal) (pair : List Char) : Except String JSVal := do
  let parts := splitOnChar '=' pair
  let decoded ← decodeParts parts
  let key := decoded.headD []
  let v : Option String :=
    match decoded with
    | _ :: p2 :: _ => some (String.mk p2)
    | _ => none
  if key.isEmpty then .ok root
  else
    match tokenizeKey key with
    | [] => .ok root
    | segs => assignPath root segs v

/-- queryStringToObject from query-string-converter.ts. -/
def queryStringToObject (queryString : String) : Except String JSVal :=
  if queryString = "" || queryString = "?" then .ok (JSVal.obj [])
  else
    let cleaned :=
      if queryString.data.head? = some '?' then queryString.data.tail
      else queryString.data
    let pairs := (splitOnChar '&' cleaned).filter (fun p => !p.isEmpty)
    pairs.foldlM processPair (JSVal.obj [])

/-- JavaScript `String(value)` for the scalar leaves the encoder emits. -/
def scalarString : JSVal → String
  | .str s => s
  | .intNum n => intRepr n
  | .boolean b => cond b "true" "false"
  | v => jsPrimString v

mutual
/-- The list of query parts `objectToQueryString` pushes for `object`,
iterating the own enumerable entries.  `Object.entries` is modelled in
insertion order: the JavaScript rule that integer-like keys enumerate
first in ascending order is not modelled (no claim involves integer-like
Mapping keys); array entries are the element indices in ascending order,
exactly as in JavaScript, followed by the extra own properties. -/
def qsObject : JSVal → String → List String
  | .obj fields, pre => qsFields fields pre
  | .arr elems props, pre => qsIdxFields elems pre 0 ++ qsFields props pre
  | .str s, pre =>
      s.data.enum.map (fun p =>
        let fullKey := if pre = "" then decRepr p.1 else pre ++ "[" ++ decRepr p.1 ++ "]"
        jsEncodeURIComponent fullKey ++ "=" ++
          jsEncodeURIComponent (String.mk [p.2]))
  | _, _ => []
termination_by structural v _pre => v

/-- Entries of an array seen as the `object` parameter: index keys in
order (holes skipped, as Object.entries skips them). -/
def qsIdxFields : List (Option JSVal) → String → Nat → List String
  | [], _, _ => []
  | none :: rest, pre, i => qsIdxFields rest pre (i + 1)
  | some value :: rest, pre, i =>
      qsOneEntry (decRepr i) value pre ++ qsIdxFields rest pre (i + 1)
termination_by structural l _pre _i => l

def qsFields : List (String × JSVal) → String → List String
  | [], _ => []
  | (key, value) :: rest, pre => qsOneEntry key value pre ++ qsFields rest pre
termination_by structural l _pre => l

/-- The parts pushed for one `[key, value]` entry of the loop body. -/
def qsOneEntry : String → JSVal → String → List String
  | _key, .null, _pre => []
  | _key, .undef, _pre => []
  | key, .obj fs, pre =>
      let fullKey := if pre = "" then key else pre ++ "[" ++ key ++ "]"
      let nested := String.intercalate "&" (qsFields fs fullKey)
      if nested = "" then [] else [nested]
  | key, .arr elems _props, pre =>
      let fullKey := if pre = "" then key else pre ++ "[" ++ key ++ "]"
      qsArrLoop elems fullKey 0
  | key, value, pre =>
      let fullKey := if pre = "" then key else pre ++ "[" ++ key ++ "]"
      [jsEncodeURIComponent fullKey ++ "=" ++
        jsEncodeURIComponent (scalarString value)]
termination_by structural _key v _pre => v

/-- The indexed loop over an array value: object (or array) items recurse
with prefix `fullKey[index]` and their joined result is pushed even when
empty; non-null scalar items emit `enc(fullKey)[index]=enc(item)` (the
index brackets are not percent-encoded); holes, null and undefined items
are skipped. -/
def qsArrLoop : List (Option JSVal) → String → Nat → List String
  | [], _, _ => []
  | none :: rest, fullKey, i => qsArrLoop rest fullKey (i + 1)
  | some JSVal.null :: rest, fullKey, i => qsArrLoop rest fullKey (i + 1)
  | some JSVal.undef :: rest, fullKey, i => qsArrLoop rest fullKey (i + 1)
  | some (JSVal.obj fs) :: rest, fullKey, i =>
      String.intercalate "&" (qsFields fs (fullKey ++ "[" ++ decRepr i ++ "]")) ::
        qsArrLoop rest fullKey (i + 1)
  | some (JSVal.arr el2 pr2) :: rest, fullKey, i =>
      String.intercalate "&"
          (qsIdxFields el2 (fullKey ++ "[" ++ decRepr i ++ "]") 0 ++
            qsFields pr2 (fullKey ++ "[" ++ decRepr i ++ "]")) ::
        qsArrLoop rest fullKey (i + 1)
  | some w :: rest, fullKey, i =>
      (jsEncodeURIComponent fullKey ++ "[" ++ decRepr i ++ "]=" ++
        jsEncodeURIComponent (scalarString w)) :: qsArrLoop rest fullKey (i + 1)
termination_by structural l _fk _i => l
end

/-- objectToQueryString from query-string-converter.ts. -/
def objectToQueryString (object : JSVal) (pre : String) : String :=
  String.intercalate "&" (qsObject object pre)

def hexCharLower (n : Nat) : Char :=
  if n < 10 then Char.ofNat (48 + n) else Char.ofNat (87 + n)

/-- JSON.stringify escaping for one string character. -/
def jsonEscapeChar (c : Char) : List Char :=
  if c = Char.ofNat 34 then ['\\', Char.ofNat 34]
  else if c = '\\' then ['\\', '\\']
  else if c = Char.ofNat 8 then ['\\', 'b']
  else if c = Char.ofNat 12 then ['\\', 'f']
  else if c = '\n' then ['\\', 'n']
  else if c = '\r' then ['\\', 'r']
  else if c = '\t' then ['\\', 't']
  else if c.toNat < 32 then
    ['\\', 'u', '0', '0', hexCharLower (c.toNat / 16), hexCharLower (c.toNat % 16)]
  else [c]

def jsonQuote (s : String) : String :=
  String.mk (Char.ofNat 34 ::
    s.data.foldr (fun c acc => jsonEscapeChar c ++ acc) [Char.ofNat 34])

mutual
/-- JSON.stringify restricted to the model (no replacer or indent).  An
undefined-valued object property is skipped; an undefined array item and
a hole serialize as null.  Object keys enumerate in the modelled
insertion order. -/
def jsonStringify : JSVal → String
  | .str s => jsonQuote s
  | .intNum n => intRepr n
  | .boolean b => cond b "true" "false"
  | .null => "null"
  | .undef => "null"
  | .arr elems _props =>
      "[" ++ String.intercalate "," (jsonArrItems elems) ++ "]"
  | .obj fields =>
      "\x7b" ++ String.intercalate "," (jsonObjItems fields) ++ "\x7d"
termination_by structural v => v

def jsonArrItems : List (Option JSVal) → List String
  | [] => []
  | e :: rest =>
      (match e with
       | none => "null"
       | some JSVal.undef => "null"
       | some v => jsonStringify v) :: jsonArrItems rest
termination_by structural l => l

def jsonObjItems : List (String × JSVal) → List String
  | [] => []
  | (_k, JSVal.undef) :: rest => jsonObjItems rest
  | (k, v) :: rest =>
      (jsonQuote k ++ ":" ++ jsonStringify v) :: jsonObjItems rest
termination_by structural l => l
end

def jsonWsChar (c : Char) : Bool := c = ' ' || c = '\t' || c = '\n' || c = '\r'

/-- The character content of a JSON string literal after the opening
quote, with the remainder after the closing quote.  Unicode escapes in
the surrogate range are outside the model (JSON.parse would build lone
UTF-16 surrogates, which the model's scalar strings cannot carry). -/
def jsonStrChars : List Char → Except String (List Char × List Char)
  | [] => .error "SyntaxError"
  | c :: rest =>
    if c = Char.ofNat 34 then .ok ([], rest)
    else if c = '\\' then
      match rest with
      | [] => .error "SyntaxError"
      | e :: rest2 =>
        if e = Char.ofNat 34 || e = '\\' || e = '/' then do
          let (tail, r) ← jsonStrChars rest2
          .ok (e :: tail, r)
        else if e = 'b' then do
          let (tail, r) ← jsonStrChars rest2
          .ok (Char.ofNat 8 :: tail, r)
        else if e = 'f' then do
          let (tail, r) ← jsonStrChars rest2
          .ok (Char.ofNat 12 :: tail, r)
        else if e = 'n' then do
          let (tail, r) ← jsonStrChars rest2
          .ok ('\n' :: tail, r)
        else if e = 'r' then do
          let (tail, r) ← jsonStrChars rest2
          .ok ('\r' :: tail, r)
        else if e = 't' then do
          let (tail, r) ← jsonStrChars rest2
          .ok ('\t' :: tail, r)
        else if e = 'u' then
          match rest2 with
          | h1 :: h2 :: h3 :: h4 :: rest3 =>
            match hexDigitVal h1, hexDigitVal h2, hexDigitVal h3, hexDigitVal h4 with
            | some a, some b, some cc, some d => do
                let code := a * 4096 + b * 256 + cc * 16 + d
                if 55296 ≤ code && code ≤ 57343 then .error "ModelSurrogate"
                else do
                  let (tail, r) ← jsonStrChars rest3
                  .ok (Char.ofNat code :: tail, r)
            | _, _, _, _ => .error "SyntaxError"
          | _ => .error "SyntaxError"
        else .error "SyntaxError"
    else if c.toNat < 32 then .error "SyntaxError"
    else do
      let (tail, r) ← jsonStrChars rest
      .ok (c :: tail, r)

/-- A JSON number token; numbers whose exact value is not an integer are
outside the model (JSVal numbers are integers). -/
def jsonParseNumber (l : List Char) : Except String (JSVal × List Char) :=
  let (neg, l1) :=
    match l with
    | '-' :: r => (true, r)
    | _ => (false, l)
  let (ip, l2) := l1.span Char.isDigit
  let ipOk :=
    match ip with
    | [] => false
    | [_] => true
    | c :: _ => c ≠ '0'
  if !ipOk then .error "SyntaxError"
  else
    let (fp, l3) :=
      match l2 with
      | '.' :: r => r.span Char.isDigit
      | _ => ([], l2)
    let fracBad := (match l2 with | '.' :: _ => fp.isEmpty | _ => false)
    if fracBad then .error "SyntaxError"
    else
      let expRes : Option (Int × List Char) :=
        match l3 with
        | c :: r =>
          if c = 'e' || c = 'E' then
            let (sgn, r2) :=
              match r with
              | '+' :: q => ((1 : Int), q)
              | '-' :: q => ((-1 : Int), q)
              | _ => ((1 : Int), r)
            let (ds, r3) := r2.span Char.isDigit
            if ds.isEmpty then none else some (sgn * digitsVal ds, r3)
          else some (0, l3)
        | [] => some (0, l3)
      match expRes with
      | none => .error "SyntaxError"
      | some (ev, l4) =>
          let m : Int := (if neg then -1 else 1) * Int.ofNat (digitsVal (ip ++ fp))
          match jsNumToInt (.fin m (ev - fp.length)) with
          | some n => .ok (.intNum n, l4)
          | none => .error "ModelNonIntegerNumber"

mutual
/-- A recursive-descent JSON.parse over the model, with fuel bounded by
the input length (every recursive step consumes at least one character,
so the fuel never runs out on an input it is called with). -/
def jsonParseVal : Nat → List Char → Except String (JSVal × List Char)
  | 0, _ => .error "SyntaxError"
  | fuel + 1, l =>
    let l1 := l.dropWhile jsonWsChar
    match l1 with
    | [] => .error "SyntaxError"
    | c :: rest =>
      if c = Char.ofNat 34 then do
        let (cs, r) ← jsonStrChars rest
        .ok (.str (String.mk cs), r)
      else if c = 't' then
        match rest with
        | 'r' :: 'u' :: 'e' :: r => .ok (.boolean true, r)
        | _ => .error "SyntaxError"
      else if c = 'f' then
        match rest with
        | 'a' :: 'l' :: 's' :: 'e' :: r => .ok (.boolean false, r)
        | _ => .error "SyntaxError"
      else if c = 'n' then
        match rest with
        | 'u' :: 'l' :: 'l' :: r => .ok (.null, r)
        | _ => .error "SyntaxError"
      else if c = '[' then
        let r1 := rest.dropWhile jsonWsChar
        match r1 with
        | ']' :: r2 => .ok (.arr [] [], r2)
        | _ => do
            let (elems, r2) ← jsonParseArrItems fuel rest
            .ok (.arr elems [], r2)
      else if c = Char.ofNat 123 then
        let r1 := rest.dropWhile jsonWsChar
        match r1 with
        | d :: r2 =>
            if d = Char.ofNat 125 then .ok (.obj [], r2)
            else do
              let (fields, r3) ← jsonParseObjItems fuel rest
              .ok (.obj fields, r3)
        | [] => .error "SyntaxError"
      else jsonParseNumber l1
termination_by structural fuel _l => fuel

def jsonParseArrItems : Nat → List Char → Except String (List (Option JSVal) × List Char)
  | 0, _ => .error "SyntaxError"
  | fuel + 1, l => do
      let (v, r1) ← jsonParseVal fuel l
      let r2 := r1.dropWhile jsonWsChar
      match r2 with
      | ',' :: r3 => do
          let (tail, r4) ← jsonParseArrItems fuel r3
          .ok (some v :: tail, r4)
      | ']' :: r3 => .ok ([some v], r3)
      | _ => .error "SyntaxError"
termination_by structural fuel _l => fuel

def jsonParseObjItems : Nat → List Char → Except String (List (String × JSVal) × List Char)
  | 0, _ => .error "SyntaxError"
  | fuel + 1, l =>
      let l1 := l.dropWhile jsonWsChar
      match l1 with
      | c :: rest =>
          if c = Char.ofNat 34 then do
            let (kcs, r1) ← jsonStrChars rest
            let r2 := r1.dropWhile jsonWsChar
            match r2 with
            | ':' :: r3 => do
                let (v, r4) ← jsonParseVal fuel r3
                let r5 := r4.dropWhile jsonWsChar
                match r5 with
                | ',' :: r6 => do
                    let (tail, r7) ← jsonParseObjItems fuel r6
                    .ok ((String.mk kcs, v) :: tail, r7)
                | d :: r6 =>
                    if d = Char.ofNat 125 then .ok ([(String.mk kcs, v)], r6)
                    else .error "SyntaxError"
                | [] => .error "SyntaxError"
            | _ => .error "SyntaxError"
          else .error "SyntaxError"
      | [] => .error "SyntaxError"
termination_by structural fuel _l => fuel
end

/-- JSON.parse; `.error` models a thrown SyntaxError (or a value outside
the model). -/
def jsonParse (s : String) : Except String JSVal := do
  let (v, rest) ← jsonParseVal (s.data.length + 1) s.data
  if (rest.dropWhile jsonWsChar).isEmpty then .ok v else .error "SyntaxError"

/-- Byte sequence of a form-urlencoded component as URLSearchParams
decodes it: `+` is a space, a valid `%hh` pair is a byte, a malformed
escape stays a literal percent character, anything else contributes its
UTF-8 bytes. -/
def formBytes : List Char → List Nat
  | [] => []
  | '+' :: rest => 32 :: formBytes rest
  | '%' :: h1 :: h2 :: rest =>
      match hexDigitVal h1, hexDigitVal h2 with
      | some a, some b => (a * 16 + b) :: formBytes rest
      | _, _ => 37 :: formBytes (h1 :: h2 :: rest)
  | c :: rest => utf8Bytes c ++ formBytes rest

/-- Lenient UTF-8 decoding with U+FFFD replacement (the WHATWG
maximal-subpart resynchronization is approximated: an invalid sequence
yields one replacement character and scanning resumes at the next byte
that is not part of it). -/
def utf8DecodeLenient : List Nat → List Char
  | [] => []
  | b :: rest =>
    if b < 128 then Char.ofNat b :: utf8DecodeLenient rest
    else if b < 192 || 248 ≤ b then Char.ofNat 65533 :: utf8DecodeLenient rest
    else if b < 224 then
      match rest with
      | b2 :: rest2 =>
          if 128 ≤ b2 && b2 < 192 then
            (if 128 ≤ (b - 192) * 64 + (b2 - 128) then
              Char.ofNat ((b - 192) * 64 + (b2 - 128))
             else Char.ofNat 65533) :: utf8DecodeLenient rest2
          else Char.ofNat 65533 :: utf8DecodeLenient (b2 :: rest2)
      | [] => [Char.ofNat 65533]
    else if b < 240 then
      match rest with
      | b2 :: b3 :: rest2 =>
          if (128 ≤ b2 && b2 < 192) && (128 ≤ b3 && b3 < 192) then
            (if 2048 ≤ (b - 224) * 4096 + (b2 - 128) * 64 + (b3 - 128) &&
                !(55296 ≤ (b - 224) * 4096 + (b2 - 128) * 64 + (b3 - 128) &&
                  (b - 224) * 4096 + (b2 - 128) * 64 + (b3 - 128) ≤ 57343) then
              Char.ofNat ((b - 224) * 4096 + (b2 - 128) * 64 + (b3 - 128))
             else Char.ofNat 65533) :: utf8DecodeLenient rest2
          else Char.ofNat 65533 :: utf8DecodeLenient (b2 :: b3 :: rest2)
      | [b2] =>
          if 128 ≤ b2 && b2 < 192 then [Char.ofNat 65533]
          else Char.ofNat 65533 :: utf8DecodeLenient [b2]
      | [] => [Char.ofNat 65533]
    else
      match rest with
      | b2 :: b3 :: b4 :: rest2 =>
          if (128 ≤ b2 && b2 < 192) && (128 ≤ b3 && b3 < 192) &&
             (128 ≤ b4 && b4 < 192) then
            (if 65536 ≤ (b - 240) * 262144 + (b2 - 128) * 4096 + (b3 - 128) * 64 + (b4 - 128) &&
                (b - 240) * 262144 + (b2 - 128) * 4096 + (b3 - 128) * 64 + (b4 - 128) < 1114112 then
              Char.ofNat ((b - 240) * 262144 + (b2 - 128) * 4096 + (b3 - 128) * 64 + (b4 - 128))
             else Char.ofNat 65533) :: utf8DecodeLenient rest2
          else Char.ofNat 65533 :: utf8DecodeLenient (b2 :: b3 :: b4 :: rest2)
      | [b2, b3] =>
          if (128 ≤ b2 && b2 < 192) && (128 ≤ b3 && b3 < 192) then [Char.ofNat 65533]
          else Char.ofNat 65533 :: utf8DecodeLenient (b2 :: [b3])
      | [b2] =>
          if 128 ≤ b2 && b2 < 192 then [Char.ofNat 65533]
          else Char.ofNat 65533 :: utf8DecodeLenient [b2]
      | [] => [Char.ofNat 65533]
termination_by structural l => l

def formDecode (l : List Char) : String := String.mk (utf8DecodeLenient (formBytes l))

/-- A pair `k=v` split at the first `=` (no `=` leaves the value empty),
as URLSearchParams splits its pairs. -/
def splitFirstEq (p : List Char) : List Char × List Char :=
  let k := p.takeWhile (fun c => c ≠ '=')
  match p.dropWhile (fun c => c ≠ '=') with
  | _ :: v => (k, v)
  | [] => (k, [])

/-- The decoded name/value list of `new URLSearchParams(init)`: one
optional leading `?` is stripped, the string splits on `&` with empty
segments skipped, and each pair splits at its first `=`. -/
def searchParamsList (s : String) : List (String × String) :=
  let l :=
    match s.data with
    | '?' :: r => r
    | r => r
  ((splitOnChar '&' l).filter (fun p => !p.isEmpty)).map (fun p =>
    let kv := splitFirstEq p
    (formDecode kv.1, formDecode kv.2))

/-- `url.includes("?") ? url.split("?")[1] : ""`: the text between the
first and the second question mark, or the empty string. -/
def querySegmentOf (url : String) : String :=
  if url.data.contains '?' then
    String.mk ((splitOnChar '?' url.data).getD 1 [])
  else ""

/-- DataCompressor.hasCompressedData from data-compressor.ts. -/
def hasCompressedData (url : String) (paramName : String) : Bool :=
  (searchParamsList (querySegmentOf url)).any (fun p => p.1 = paramName)

/-- DataCompressor.getCompressedData from data-compressor.ts (`none`
models the null of URLSearchParams.get). -/
def getCompressedData (url : String) (paramName : String) : Option String :=
  ((searchParamsList (querySegmentOf url)).find? (fun p => p.1 = paramName)).map
    (fun p => p.2)

inductive ValidatorContext where
  | serialized
  | deserialized
deriving Repr, DecidableEq

/-- The validator result record; `data` is optional (`none` models an
absent/undefined data member) and `errors` is kept abstract. -/
structure ValidationResult where
  success : Bool
  data : Option JSVal := none
  errors : Option String := none

/-- The caller-supplied CompressionOptions record.  `threshold` and
`paramName` are optional; `compress` is total (the collaborator contract
calls it pure) while `decompress` may throw, which claim C3 is about, so
it returns in `Except`. -/
structure CompressionOptions where
  threshold : Option Int := none
  paramName : Option String := none
  compress : String → String
  decompress : String → Except String String

structure QueryParserOptions where
  basePath : Option String := none
  compression : Option CompressionOptions := none
  defaultValues : Option JSVal := none

/-- The normalized compression block the constructor stores
(`Required<CompressionOptions>`). -/
structure EffectiveCompression where
  threshold : Int
  paramName : String
  compress : String → String
  decompress : String → Except String String

/-- The state of a QueryParamCore instance: the validator, the raw
options, and the compression block normalized once at construction. -/
structure QueryParamCore where
  validator : JSVal → ValidatorContext → ValidationResult
  options : QueryParserOptions
  compressionOptions : Option EffectiveCompression

/-- The QueryParamCore constructor: a configured compression block is
normalized, replacing a falsy threshold (0; NaN is not modelled) by 500
and a falsy paramName (the empty string) by "qs". -/
def mkCore (validator : JSVal → ValidatorContext → ValidationResult)
    (options : QueryParserOptions) : QueryParamCore :=
  { validator := validator
    options := options
    compressionOptions :=
      options.compression.map (fun c =>
        { threshold :=
            match c.threshold with
            | some t => if t = 0 then 500 else t
            | none => 500
          paramName :=
            match c.paramName with
            | some p => if p = "" then "qs" else p
            | none => "qs"
          compress := c.compress
          decompress := c.decompress }) }

/-- Own enumerable entries as object spread enumerates them (insertion
order modelled, holes skipped, see qsObject for the enumeration-order
modelling note). -/
def spreadEntries : JSVal → List (String × JSVal)
  | .obj fields => fields
  | .arr elems props =>
      elems.enum.filterMap (fun p => p.2.map (fun w => (decRepr p.1, w))) ++ props
  | .str s => s.data.enum.map (fun p => (decRepr p.1, JSVal.str (String.mk [p.2])))
  | _ => []

/-- `{ ...base, ...v }` applied to a field list. -/
def spreadMerge (base : List (String × JSVal)) (v : JSVal) : List (String × JSVal) :=
  (spreadEntries v).foldl (fun acc p => updateField acc p.1 p.2) base

/-- `{ ...a, ...b }`.  structuredClone is the identity in a value model:
every JSVal is already an independent value. -/
def spread2 (a b : JSVal) : JSVal := .obj (spreadMerge (spreadMerge [] a) b)

def defaultsObj (core : QueryParamCore) : JSVal :=
  match core.options.defaultValues with
  | some d => d
  | none => .obj []

/-- applyDefaultValues: `{ ...clone(defaults), ...clone(params) }`. -/
def applyDefaultValues (core : QueryParamCore) (params : JSVal) : JSVal :=
  spread2 (defaultsObj core) params

/-- parsedSerializedParams, the plain read path: decode (uncaught
exceptions propagate), merge over the defaults, validate in the
serialized context; on `success && data`(truthy) return the validator
data, else the merged-but-unvalidated data. -/
def parsedSerializedParams (core : QueryParamCore) (queryString : String)
    (defaultParams : JSVal) : Except String JSVal := do
  let parsed ← queryStringToObject queryString
  let mergedData := spread2 defaultParams parsed
  let validationResult := core.validator mergedData .serialized
  match validationResult.data with
  | some d =>
      if validationResult.success && d.truthy then .ok d else .ok mergedData
  | none => .ok mergedData

/-- parseCompressedParams: the body sits in a try/catch, so any throw
from decompress or JSON.parse is caught (logged) and the default value
returned; a falsy compressed value (absent marker or empty string) falls
through to the default value as well. -/
def parseCompressedParams (core : QueryParamCore) (queryString : String)
    (defaultParams : JSVal) : Except String JSVal :=
  match core.compressionOptions with
  | none => parsedSerializedParams core queryString defaultParams
  | some copts =>
      let body : Except String (Option JSVal) := do
        match getCompressedData queryString copts.paramName with
        | some compressed =>
            if compressed ≠ "" then do
              let decompressed ← copts.decompress compressed
              let parsed ← jsonParse decompressed
              let mergedData := spread2 defaultParams parsed
              let vr := core.validator mergedData .serialized
              match vr.data with
              | some d =>
                  if vr.success && d.truthy then .ok (some d)
                  else .ok (some mergedData)
              | none => .ok (some mergedData)
            else .ok none
        | none => .ok none
      match body with
      | .ok (some r) => .ok r
      | .ok none => .ok defaultParams
      | .error _ => .ok defaultParams

/-- parseQueryParams, the read path. -/
def parseQueryParams (core : QueryParamCore) (queryString : String) :
    Except String JSVal :=
  let withDefaults := applyDefaultValues core (.obj [])
  match core.compressionOptions with
  | some copts =>
      if hasCompressedData queryString copts.paramName then
        parseCompressedParams core queryString withDefaults
      else parsedSerializedParams core queryString withDefaults
  | none => parsedSerializedParams core queryString withDefaults

/-- validateDeserializedParams, the write path: merge the defaults under
the candidate, validate in the deserialized context; on
`success && data`(truthy) wrap a copy of the data as success, else
return the validator result verbatim. -/
def validateDeserializedParams (core : QueryParamCore) (params : JSVal) :
    ValidationResult :=
  let withDefaults := spread2 (defaultsObj core) params
  let vr := core.validator withDefaults .deserialized
  match vr.data with
  | some d =>
      if vr.success && d.truthy then
        { success := true, data := some d, errors := vr.errors }
      else vr
  | none => vr

/-- The base path: the configured one when truthy; the model has no
window, so the fallback is "/" exactly as in a windowless runtime. -/
def effBasePath (core : QueryParamCore) : String :=
  match core.options.basePath with
  | some bp => if bp = "" then "/" else bp
  | none => "/"

def createRegularUrl (params : JSVal) (basePath : String) : String :=
  let queryString := objectToQueryString params ""
  basePath ++ (if queryString ≠ "" then "?" ++ queryString else "")

def createCompressedUrl (core : QueryParamCore) (params : JSVal)
    (basePath : String) : String :=
  match core.compressionOptions with
  | none => createRegularUrl params basePath
  | some copts =>
      let jsonString := jsonStringify params
      let compressed := copts.compress jsonString
      basePath ++ "?" ++ copts.paramName ++ "=" ++ jsEncodeURIComponent compressed

/-- createUrl: the compressed form is chosen exactly when compression is
configured and `JSON.stringify(params).length` (UTF-16 units) exceeds
the effective threshold. -/
def createUrl (core : QueryParamCore) (params : JSVal) : String :=
  let basePath := effBasePath core
  match core.compressionOptions with
  | some copts =>
      if (utf16Len (jsonStringify params) : Int) > copts.threshold then
        createCompressedUrl core params basePath
      else createRegularUrl params basePath
  | none => createRegularUrl params basePath


theorem except_bind_ok {a b : Type} (x : a) (f : a → Except String b) :
    (Except.ok x >>= f) = f x := rfl

theorem except_bind_err {a b : Type} (e : String) (f : a → Except String b) :
    ((Except.error e : Except String a) >>= f) = .error e := rfl

/-- A validator that succeeds and echoes its input, used to instantiate
theorems at concrete pipelines. -/
def idValidator : JSVal → ValidatorContext → ValidationResult :=
  fun v _ => { success := true, data := some v }

/-- A validator that always reports failure. -/
def rejectAllValidator : JSVal → ValidatorContext → ValidationResult :=
  fun _ _ => { success := false }

/-- C2: the specification says the read path never propagates a thrown
error, whatever the input; but queryStringToObject calls
decodeURIComponent outside any try/catch, so on the malformed percent
escape in the query string "a=%" parseQueryParams propagates the
URIError, for every validator and every configuration. -/
theorem parseQueryParams_propagates_URIError
    (vld : JSVal → ValidatorContext → ValidationResult)
    (opts : QueryParserOptions) :
    parseQueryParams (mkCore vld opts) "a=%" = .error "URIError" := by
  have hp : ∀ (core : QueryParamCore) (d : JSVal),
      parsedSerializedParams core "a=%" d = .error "URIError" := by
    intro core d
    unfold parsedSerializedParams
    rw [show queryStringToObject "a=%" = .error "URIError" from rfl]
    rfl
  unfold parseQueryParams
  cases hc : (mkCore vld opts).compressionOptions with
  | none => exact hp _ _
  | some copts =>
      dsimp only
      rw [show hasCompressedData "a=%" copts.paramName = false from rfl]
      simp only [Bool.false_eq_true, if_false]
      exact hp _ _

/-- The options record of claim C10: a basePath, default values, and a
compression block with the given threshold and marker parameter name. -/
def c10Options (bp : Option String) (dv : Option JSVal) (t : Option Int)
    (pn : Option String) (cp : String → String)
    (dcp : String → Except String String) : QueryParserOptions :=
  { basePath := bp
    defaultValues := dv
    compression := some { threshold := t, paramName := pn,
                          compress := cp, decompress := dcp } }

/-- C10: an explicitly configured threshold of 0 or paramName of "" is
falsy, so the constructor replaces them by the defaults 500 and "qs";
the pipeline then behaves exactly as if those defaults had been
configured - on the read path, on URL construction, and on the write
path. -/
theorem falsy_compression_options_behave_as_defaults
    (vld : JSVal → ValidatorContext → ValidationResult)
    (bp : Option String) (dv : Option JSVal)
    (cp : String → String) (dcp : String → Except String String)
    (qs : String) (params cand : JSVal) :
    (parseQueryParams (mkCore vld (c10Options bp dv (some 0) (some "") cp dcp)) qs =
      parseQueryParams (mkCore vld (c10Options bp dv (some 500) (some "qs") cp dcp)) qs) ∧
    (createUrl (mkCore vld (c10Options bp dv (some 0) (some "") cp dcp)) params =
      createUrl (mkCore vld (c10Options bp dv (some 500) (some "qs") cp dcp)) params) ∧
    (validateDeserializedParams (mkCore vld (c10Options bp dv (some 0) (some "") cp dcp)) cand =
      validateDeserializedParams (mkCore vld (c10Options bp dv (some 500) (some "qs") cp dcp)) cand) :=
  ⟨rfl, rfl, rfl⟩

/-- C3: with compression configured and the marker parameter present,
if the marker value makes decompress throw, or decompress succeeds and
the structured-payload parse throws, then parseQueryParams returns the
defaults-only value (applyDefaultValues of the empty object, a fresh
value in this model) and does not throw. -/
theorem parse_fail_soft_on_decompression_failure
    (vld : JSVal → ValidatorContext → ValidationResult)
    (opts : QueryParserOptions) (copts : EffectiveCompression)
    (qs : String) (c : String)
    (hc : (mkCore vld opts).compressionOptions = some copts)
    (hm : hasCompressedData qs copts.paramName = true)
    (hg : getCompressedData qs copts.paramName = some c)
    (hne : c ≠ "")
    (hfail : (∃ e, copts.decompress c = .error e) ∨
             (∃ d e, copts.decompress c = .ok d ∧ jsonParse d = .error e)) :
    parseQueryParams (mkCore vld opts) qs =
      .ok (applyDefaultValues (mkCore vld opts) (.obj [])) := by
  unfold parseQueryParams
  rw [hc]
  dsimp only
  rw [hm]
  simp only [if_true]
  unfold parseCompressedParams
  rw [hc]
  dsimp only
  rw [hg]
  dsimp only
  rw [if_pos hne]
  rcases hfail with ⟨e, he⟩ | ⟨d, e, hd, hj⟩
  · rw [he]
    rfl
  · rw [hd]
    dsimp only [except_bind_ok]
    rw [hj]
    rfl

/-- Witness for C3: a pipeline whose decompress always throws, fed a
query string carrying the marker parameter, returns exactly the
defaults. -/
theorem parse_fail_soft_on_decompression_failure_witness :
    parseQueryParams
      (mkCore idValidator
        { defaultValues := some (.obj [("d", .str "v")]),
          compression := some { threshold := some 5, paramName := some "qs",
                                compress := id,
                                decompress := fun _ => .error "boom" } })
      "?qs=zzz" =
      .ok (JSVal.obj [("d", JSVal.str "v")]) :=
  parse_fail_soft_on_decompression_failure idValidator
    { defaultValues := some (.obj [("d", .str "v")]),
      compression := some { threshold := some 5, paramName := some "qs",
                            compress := id,
                            decompress := fun _ => .error "boom" } }
    { threshold := 5, paramName := "qs", compress := id,
      decompress := fun _ => .error "boom" }
    "?qs=zzz" "zzz" rfl rfl rfl (by decide)
    (Or.inl ⟨"boom", rfl⟩)

theorem mkCore_validator (v : JSVal → ValidatorContext → ValidationResult)
    (o : QueryParserOptions) : (mkCore v o).validator = v := rfl

/-- C4: whenever the validator reports failure in the "serialized"
context, parseQueryParams returns the merged-but-unvalidated data (the
decoded tree spread over the defaults) rather than failing or returning
only defaults - on the plain path (first conjunct) and on the compressed
path (second conjunct). -/
theorem parse_returns_merged_on_validator_failure :
    (∀ (vld : JSVal → ValidatorContext → ValidationResult)
       (opts : QueryParserOptions) (qs : String) (parsed : JSVal),
      (match (mkCore vld opts).compressionOptions with
       | some copts => hasCompressedData qs copts.paramName = false
       | none => True) →
      queryStringToObject qs = .ok parsed →
      (vld (spread2 (applyDefaultValues (mkCore vld opts) (.obj [])) parsed)
          .serialized).success = false →
      parseQueryParams (mkCore vld opts) qs =
        .ok (spread2 (applyDefaultValues (mkCore vld opts) (.obj [])) parsed)) ∧
    (∀ (vld : JSVal → ValidatorContext → ValidationResult)
       (opts : QueryParserOptions) (copts : EffectiveCompression)
       (qs c d : String) (parsed : JSVal),
      (mkCore vld opts).compressionOptions = some copts →
      hasCompressedData qs copts.paramName = true →
      getCompressedData qs copts.paramName = some c →
      c ≠ "" →
      copts.decompress c = .ok d →
      jsonParse d = .ok parsed →
      (vld (spread2 (applyDefaultValues (mkCore vld opts) (.obj [])) parsed)
          .serialized).success = false →
      parseQueryParams (mkCore vld opts) qs =
        .ok (spread2 (applyDefaultValues (mkCore vld opts) (.obj [])) parsed)) := by
  constructor
  · intro vld opts qs parsed hbr hdec hval
    unfold parseQueryParams
    cases hc : (mkCore vld opts).compressionOptions with
    | none =>
        unfold parsedSerializedParams
        rw [hdec]
        dsimp only [except_bind_ok]
        rw [mkCore_validator]
        cases hd : (vld (spread2 (applyDefaultValues (mkCore vld opts) (.obj [])) parsed)
            .serialized).data with
        | none => rfl
        | some dd => rw [hval]; simp
    | some copts =>
        rw [hc] at hbr
        dsimp only
        rw [hbr]
        simp only [Bool.false_eq_true, if_false]
        unfold parsedSerializedParams
        rw [hdec]
        dsimp only [except_bind_ok]
        rw [mkCore_validator]
        cases hd : (vld (spread2 (applyDefaultValues (mkCore vld opts) (.obj [])) parsed)
            .serialized).data with
        | none => rfl
        | some dd => rw [hval]; simp
  · intro vld opts copts qs c d parsed hc hm hg hne hdc hj hval
    unfold parseQueryParams
    rw [hc]
    dsimp only
    rw [hm]
    simp only [if_true]
    unfold parseCompressedParams
    rw [hc]
    dsimp only
    rw [hg]
    dsimp only
    rw [if_pos hne, hdc]
    dsimp only [except_bind_ok]
    rw [hj]
    dsimp only [except_bind_ok]
    rw [mkCore_validator]
    cases hd : (vld (spread2 (applyDefaultValues (mkCore vld opts) (.obj [])) parsed)
        .serialized).data with
    | none => rfl
    | some dd => rw [hval]; simp

/-- Witness for C4 (plain path): an always-failing validator makes
parseQueryParams return the decoded tree merged over the defaults. -/
theorem parse_returns_merged_on_validator_failure_witness :
    parseQueryParams
      (mkCore rejectAllValidator
        { defaultValues := some (.obj [("a", .str "dflt"), ("z", .str "keep")]) })
      "?a=1" =
      .ok (JSVal.obj [("a", JSVal.str "1"), ("z", JSVal.str "keep")]) :=
  parse_returns_merged_on_validator_failure.1 rejectAllValidator
    { defaultValues := some (.obj [("a", .str "dflt"), ("z", .str "keep")]) }
    "?a=1" (JSVal.obj [("a", JSVal.str "1")]) trivial rfl rfl

/-- C6: with a CompressionPolicy configured, createUrl emits
`basePath?markerParamName=encoded(compressed)` exactly when the
serialized size of the value (JSON.stringify length in UTF-16 units)
exceeds the effective threshold, and otherwise the plain query-codec
encoding, the base path standing alone when the encoded string is
empty. -/
theorem createUrl_threshold_choice
    (vld : JSVal → ValidatorContext → ValidationResult)
    (opts : QueryParserOptions) (copts : EffectiveCompression) (params : JSVal)
    (hc : (mkCore vld opts).compressionOptions = some copts) :
    createUrl (mkCore vld opts) params =
      if (utf16Len (jsonStringify params) : Int) > copts.threshold then
        effBasePath (mkCore vld opts) ++ "?" ++ copts.paramName ++ "=" ++
          jsEncodeURIComponent (copts.compress (jsonStringify params))
      else
        effBasePath (mkCore vld opts) ++
          (if objectToQueryString params "" ≠ "" then
            "?" ++ objectToQueryString params "" else "") := by
  unfold createUrl
  rw [hc]
  dsimp only
  by_cases ht : (utf16Len (jsonStringify params) : Int) > copts.threshold
  · rw [if_pos ht, if_pos ht]
    unfold createCompressedUrl
    rw [hc]
  · rw [if_neg ht, if_neg ht]
    rfl

/-- Witness for C6 at the spec's exemplar sizes: with threshold 10, a
value serializing to 48 units produces the marker URL, while one
serializing to 9 units produces the plain encoded keys. -/
theorem createUrl_threshold_choice_witness :
    createUrl
        (mkCore idValidator
          { basePath := some "/p",
            compression := some { threshold := some 10, paramName := some "qs",
                                  compress := fun s => "Z" ++ s,
                                  decompress := Except.ok } })
        (JSVal.obj [("a", JSVal.str "0123456789012345678901234567890123456789")]) =
      "/p?qs=Z%7B%22a%22%3A%220123456789012345678901234567890123456789%22%7D" ∧
    createUrl
        (mkCore idValidator
          { basePath := some "/p",
            compression := some { threshold := some 10, paramName := some "qs",
                                  compress := fun s => "Z" ++ s,
                                  decompress := Except.ok } })
        (JSVal.obj [("a", JSVal.str "x")]) =
      "/p?a=x" := by
  constructor
  · have h := createUrl_threshold_choice idValidator
      { basePath := some "/p",
        compression := some { threshold := some 10, paramName := some "qs",
                              compress := fun s => "Z" ++ s,
                              decompress := Except.ok } }
      { threshold := 10, paramName := "qs", compress := fun s => "Z" ++ s,
        decompress := Except.ok }
      (JSVal.obj [("a", JSVal.str "0123456789012345678901234567890123456789")])
      rfl
    exact h.trans (by decide)
  · have h := createUrl_threshold_choice idValidator
      { basePath := some "/p",
        compression := some { threshold := some 10, paramName := some "qs",
                              compress := fun s => "Z" ++ s,
                              decompress := Except.ok } }
      { threshold := 10, paramName := "qs", compress := fun s => "Z" ++ s,
        decompress := Except.ok }
      (JSVal.obj [("a", JSVal.str "x")])
      rfl
    exact h.trans (by decide)

theorem lookupField_updateField (l : List (String × JSVal)) (key : String)
    (v : JSVal) (k2 : String) :
    lookupField (updateField l key v) k2 =
      if key = k2 then some v else lookupField l k2 := by
  induction l with
  | nil => simp [updateField, lookupField]
  | cons p rest ih =>
      obtain ⟨k1, w⟩ := p
      simp only [updateField]
      by_cases h1 : k1 = key
      · subst h1
        rw [if_pos rfl]
        simp only [lookupField]
        split_ifs <;> rfl
      · rw [if_neg h1]
        simp only [lookupField]
        by_cases h2 : k1 = k2
        · have hk : ¬key = k2 := fun he => h1 (h2.trans he.symm)
          rw [if_pos h2, if_neg hk, if_pos h2]
        · rw [if_neg h2, ih, if_neg h2]

theorem lookupField_eq_none (l : List (String × JSVal)) (k : String)
    (h : k ∉ l.map Prod.fst) : lookupField l k = none := by
  induction l with
  | nil => rfl
  | cons p rest ih =>
      simp only [List.map_cons, List.mem_cons] at h
      push_neg at h
      simp only [lookupField]
      rw [if_neg (fun he => h.1 he.symm)]
      exact ih h.2

theorem lookup_foldl_update (l : List (String × JSVal))
    (base : List (String × JSVal)) (k : String)
    (hnd : (l.map Prod.fst).Nodup) :
    lookupField (l.foldl (fun acc p => updateField acc p.1 p.2) base) k =
      match lookupField l k with
      | some v => some v
      | none => lookupField base k := by
  induction l generalizing base with
  | nil => simp [lookupField]
  | cons p rest ih =>
      obtain ⟨k1, v1⟩ := p
      simp only [List.map_cons, List.nodup_cons] at hnd
      simp only [List.foldl_cons]
      rw [ih _ hnd.2]
      by_cases h2 : k1 = k
      · subst h2
        rw [lookupField_eq_none rest k1 hnd.1]
        simp [lookupField, lookupField_updateField]
      · simp only [lookupField, if_neg h2]
        cases lookupField rest k <;> simp [lookupField_updateField, h2]

/-- C7: validateDeserializedParams merges the defaults under the
candidate.  First conjunct: on every key the candidate wins when it has
the key and the defaults only fill absence.  Second conjunct: the
validator is invoked on exactly that merge, and when it succeeds echoing
that merge the merged value is what the result carries.  Third conjunct:
the concrete exemplar - candidate a:1 against defaults a:2, b:3 passes
and returns a:1, b:3. -/
theorem validate_merges_defaults_under_candidate :
    (∀ (dv cand : List (String × JSVal)) (k : String),
      (dv.map Prod.fst).Nodup → (cand.map Prod.fst).Nodup →
      lookupField (spreadMerge (spreadMerge [] (JSVal.obj dv)) (JSVal.obj cand)) k =
        match lookupField cand k with
        | some v => some v
        | none => lookupField dv k) ∧
    (∀ (vld : JSVal → ValidatorContext → ValidationResult)
       (dv : Option JSVal) (cand : JSVal),
      vld (spread2 (defaultsObj (mkCore vld { defaultValues := dv })) cand)
          .deserialized =
        { success := true,
          data := some (spread2 (defaultsObj (mkCore vld { defaultValues := dv })) cand),
          errors := none } →
      validateDeserializedParams (mkCore vld { defaultValues := dv }) cand =
        { success := true,
          data := some (spread2 (defaultsObj (mkCore vld { defaultValues := dv })) cand),
          errors := none }) ∧
    validateDeserializedParams
        (mkCore idValidator
          { defaultValues := some (.obj [("a", .intNum 2), ("b", .intNum 3)]) })
        (.obj [("a", .intNum 1)]) =
      { success := true,
        data := some (JSVal.obj [("a", JSVal.intNum 1), ("b", JSVal.intNum 3)]),
        errors := none } := by
  refine ⟨?_, ?_, rfl⟩
  · intro dv cand k hnd hnc
    show lookupField ((spreadEntries (JSVal.obj cand)).foldl
        (fun acc p => updateField acc p.1 p.2)
        (spreadMerge [] (JSVal.obj dv))) k = _
    rw [show spreadEntries (JSVal.obj cand) = cand from rfl]
    rw [lookup_foldl_update cand _ k hnc]
    show _ = _
    rw [show spreadMerge [] (JSVal.obj dv) =
      dv.foldl (fun acc p => updateField acc p.1 p.2) [] from rfl]
    rw [lookup_foldl_update dv [] k hnd]
    cases lookupField cand k <;> cases lookupField dv k <;> rfl
  · intro vld dv cand hecho
    unfold validateDeserializedParams
    rw [mkCore_validator]
    dsimp only
    rw [hecho]
    rfl

/-- Witness for C7: the merge-lookup law at the exemplar defaults and
candidate, on a key the candidate has and on one it lacks. -/
theorem validate_merges_defaults_under_candidate_witness :
    (lookupField (spreadMerge
        (spreadMerge [] (JSVal.obj [("a", JSVal.intNum 2), ("b", JSVal.intNum 3)]))
        (JSVal.obj [("a", JSVal.intNum 1)])) "a" = some (JSVal.intNum 1)) ∧
    (lookupField (spreadMerge
        (spreadMerge [] (JSVal.obj [("a", JSVal.intNum 2), ("b", JSVal.intNum 3)]))
        (JSVal.obj [("a", JSVal.intNum 1)])) "b" = some (JSVal.intNum 3)) ∧
    validateDeserializedParams
        (mkCore idValidator
          { defaultValues := some (.obj [("a", .intNum 2), ("b", .intNum 3)]) })
        (.obj [("a", .intNum 1)]) =
      { success := true,
        data := some (JSVal.obj [("a", JSVal.intNum 1), ("b", JSVal.intNum 3)]),
        errors := none } :=
  ⟨validate_merges_defaults_under_candidate.1
      [("a", JSVal.intNum 2), ("b", JSVal.intNum 3)] [("a", JSVal.intNum 1)] "a"
      (by decide) (by decide),
   validate_merges_defaults_under_candidate.1
      [("a", JSVal.intNum 2), ("b", JSVal.intNum 3)] [("a", JSVal.intNum 1)] "b"
      (by decide) (by decide),
   validate_merges_defaults_under_candidate.2.2⟩

theorem pctUnits_no_pct :
    ∀ (l : List Char), (∀ c ∈ l, c ≠ '%') →
      pctUnits l = .ok (l.map Sum.inl) := by
  intro l h
  induction l with
  | nil => rfl
  | cons c rest ih =>
      rw [pctUnits, if_neg (h c (List.mem_cons_self c rest)),
        ih (fun d hd => h d (List.mem_cons_of_mem c hd))]
      rfl

theorem unitsDecode_all_raw :
    ∀ (l : List Char), unitsDecode (l.map Sum.inl) = .ok l := by
  intro l
  induction l with
  | nil => rfl
  | cons c rest ih =>
      rw [List.map_cons, unitsDecode, ih]
      rfl

theorem pctDecodeList_no_pct :
    ∀ (l : List Char), (∀ c ∈ l, c ≠ '%') → pctDecodeList l = .ok l := by
  intro l h
  rw [pctDecodeList, pctUnits_no_pct l h]
  exact unitsDecode_all_raw l

theorem splitOnChar_cons (sep c : Char) (rest : List Char) :
    splitOnChar sep (c :: rest) =
      if c = sep then [] :: splitOnChar sep rest
      else
        match splitOnChar sep rest with
        | [] => [[c]]
        | h :: t => (c :: h) :: t := rfl

theorem splitOnChar_ne_nil (sep : Char) : ∀ (l : List Char), splitOnChar sep l ≠ [] := by
  intro l
  cases l with
  | nil => exact fun h => List.noConfusion h
  | cons c rest =>
      rw [splitOnChar_cons]
      by_cases hc : c = sep
      · rw [if_pos hc]; exact fun h => List.noConfusion h
      · rw [if_neg hc]
        cases splitOnChar sep rest with
        | nil => exact fun h => List.noConfusion h
        | cons a t => exact fun h => List.noConfusion h

theorem splitOnChar_no_sep (sep : Char) :
    ∀ (l : List Char), (∀ c ∈ l, c ≠ sep) → splitOnChar sep l = [l] := by
  intro l h
  induction l with
  | nil => rfl
  | cons c rest ih =>
      rw [splitOnChar_cons, if_neg (h c (List.mem_cons_self c rest)),
        ih (fun d hd => h d (List.mem_cons_of_mem c hd))]

theorem splitOnChar_append (sep : Char) :
    ∀ (a b : List Char), (∀ c ∈ a, c ≠ sep) →
      splitOnChar sep (a ++ sep :: b) = a :: splitOnChar sep b := by
  intro a
  induction a with
  | nil =>
      intro b _
      show splitOnChar sep (sep :: b) = [] :: splitOnChar sep b
      rw [splitOnChar_cons, if_pos rfl]
  | cons c rest ih =>
      intro b h
      show splitOnChar sep (c :: (rest ++ sep :: b)) = _
      rw [splitOnChar_cons, if_neg (h c (List.mem_cons_self c rest)),
        ih b (fun d hd => h d (List.mem_cons_of_mem c hd))]

theorem tokScan_cons (c : Char) (cs : List Char) :
    tokScan (c :: cs) =
      if c = ']' then tokScan cs
      else if c = '[' then tokGroup [] cs
      else tokBare [c] cs := by
  rw [tokScan]

theorem tokBare_cons (acc : List Char) (c : Char) (cs : List Char) :
    tokBare acc (c :: cs) =
      if c = ']' then acc.reverse :: tokScan cs
      else if c = '[' then acc.reverse :: tokGroup [] cs
      else tokBare (c :: acc) cs := by
  rw [tokBare]

theorem tokGroup_cons (acc : List Char) (c : Char) (cs : List Char) :
    tokGroup acc (c :: cs) =
      if c = ']' then ('[' :: (acc.reverse ++ [']'])) :: tokScan cs
      else if c = '[' then
        if acc.isEmpty then tokGroup [] cs
        else acc.reverse :: tokGroup [] cs
      else tokGroup (c :: acc) cs := by
  rw [tokGroup]

theorem tokBare_all_plain :
    ∀ (l : List Char) (acc : List Char), (∀ c ∈ l, isBracketChar c = false) →
      tokBare acc l = [acc.reverse ++ l] := by
  intro l
  induction l with
  | nil => intro acc _; simp [tokBare]
  | cons c rest ih =>
      intro acc h
      have hc : isBracketChar c = false := h c (List.mem_cons_self c rest)
      have hc1 : c ≠ ']' := by intro he; subst he; simp [isBracketChar] at hc
      have hc2 : c ≠ '[' := by intro he; subst he; simp [isBracketChar] at hc
      rw [tokBare_cons, if_neg hc1, if_neg hc2,
        ih (c :: acc) (fun d hd => h d (List.mem_cons_of_mem c hd))]
      simp

theorem tokScan_all_plain (l : List Char) (hne : l ≠ [])
    (h : ∀ c ∈ l, isBracketChar c = false) : tokScan l = [l] := by
  cases l with
  | nil => exact absurd rfl hne
  | cons c rest =>
      have hc : isBracketChar c = false := h c (List.mem_cons_self c rest)
      have hc1 : c ≠ ']' := by intro he; subst he; simp [isBracketChar] at hc
      have hc2 : c ≠ '[' := by intro he; subst he; simp [isBracketChar] at hc
      rw [tokScan_cons, if_neg hc1, if_neg hc2,
        tokBare_all_plain rest [c] (fun d hd => h d (List.mem_cons_of_mem c hd))]
      rfl

theorem tokBare_append :
    ∀ (a : List Char), (∀ c ∈ a, isBracketChar c = false) →
      ∀ (acc rest : List Char), tokBare acc (a ++ rest) =
        tokBare (a.reverse ++ acc) rest := by
  intro a
  induction a with
  | nil => intro _ acc rest; rfl
  | cons c arest ih =>
      intro hplain acc rest
      have hc : isBracketChar c = false := hplain c (List.mem_cons_self c arest)
      have hc1 : c ≠ ']' := by intro he; subst he; simp [isBracketChar] at hc
      have hc2 : c ≠ '[' := by intro he; subst he; simp [isBracketChar] at hc
      show tokBare acc (c :: (arest ++ rest)) = _
      rw [tokBare_cons, if_neg hc1, if_neg hc2,
        ih (fun d hd => hplain d (List.mem_cons_of_mem c hd)) (c :: acc) rest]
      simp

theorem tokGroup_append :
    ∀ (b : List Char), (∀ c ∈ b, isBracketChar c = false) →
      ∀ (acc rest : List Char), tokGroup acc (b ++ rest) =
        tokGroup (b.reverse ++ acc) rest := by
  intro b
  induction b with
  | nil => intro _ acc rest; rfl
  | cons c brest ih =>
      intro hplain acc rest
      have hc : isBracketChar c = false := hplain c (List.mem_cons_self c brest)
      have hc1 : c ≠ ']' := by intro he; subst he; simp [isBracketChar] at hc
      have hc2 : c ≠ '[' := by intro he; subst he; simp [isBracketChar] at hc
      show tokGroup acc (c :: (brest ++ rest)) = _
      rw [tokGroup_cons, if_neg hc1, if_neg hc2,
        ih (fun d hd => hplain d (List.mem_cons_of_mem c hd)) (c :: acc) rest]
      simp

/-- Tokenizing `a[b]rest` with `a` a nonempty plain run and `b` a plain
run: the bare token `a`, the group token `[b]`, and the tokens of the
remainder. -/
theorem tokScan_key_group (a b rest : List Char) (hne : a ≠ [])
    (ha : ∀ c ∈ a, isBracketChar c = false)
    (hb : ∀ c ∈ b, isBracketChar c = false) :
    tokScan (a ++ '[' :: (b ++ ']' :: rest)) =
      a :: ('[' :: (b ++ [']'])) :: tokScan rest := by
  cases a with
  | nil => exact absurd rfl hne
  | cons c arest =>
      have hc : isBracketChar c = false := ha c (List.mem_cons_self c arest)
      have hc1 : c ≠ ']' := by intro he; subst he; simp [isBracketChar] at hc
      have hc2 : c ≠ '[' := by intro he; subst he; simp [isBracketChar] at hc
      show tokScan (c :: (arest ++ '[' :: (b ++ ']' :: rest))) = _
      rw [tokScan_cons, if_neg hc1, if_neg hc2,
        tokBare_append arest (fun d hd => ha d (List.mem_cons_of_mem c hd)) [c] _,
        tokBare_cons, if_neg (by decide : ('[' : Char) ≠ ']'), if_pos rfl,
        tokGroup_append b hb [] (']' :: rest), tokGroup_cons, if_pos rfl]
      simp

theorem cleanSeg_plain (l : List Char) (h : ∀ c ∈ l, isBracketChar c = false) :
    cleanSeg l = l := by
  unfold cleanSeg
  exact List.filter_eq_self.mpr (fun c hc => by rw [h c hc]; rfl)

theorem cleanSeg_group (b : List Char) (h : ∀ c ∈ b, isBracketChar c = false) :
    cleanSeg ('[' :: (b ++ [']'])) = b := by
  unfold cleanSeg
  rw [List.filter_cons_of_neg (by simp [isBracketChar]), List.filter_append,
    List.filter_eq_self.mpr (fun c hc => by rw [h c hc]; rfl)]
  simp [isBracketChar]

theorem foldlM_singleton (f : JSVal → List Char → Except String JSVal)
    (b : JSVal) (a : List Char) :
    List.foldlM f b [a] = f b a := by
  cases h : f b a <;> simp [List.foldlM, h, Except.bind]

/-- Decoding a query string that is one pair `key=value`, with no `&`,
`=` or `%` in the key or value and the key not opening with `?`:
splitting and percent-decoding leave them untouched, and the result is
the tree-assembly walk on the tokenized key. -/
theorem decode_single_pair (key v : List Char)
    (hne : key ≠ [])
    (hk : ∀ c ∈ key, c ≠ '&' ∧ c ≠ '=' ∧ c ≠ '%')
    (hv : ∀ c ∈ v, c ≠ '&' ∧ c ≠ '=' ∧ c ≠ '%')
    (hq : key.head? ≠ some '?') :
    queryStringToObject (String.mk (key ++ '=' :: v)) =
      match tokenizeKey key with
      | [] => .ok (JSVal.obj [])
      | segs => assignPath (JSVal.obj []) segs (some (String.mk v)) := by
  have hmkne : String.mk (key ++ '=' :: v) ≠ "" := by
    intro h
    have : key ++ '=' :: v = [] := by
      have := congrArg String.data h
      simpa using this
    cases key <;> simp_all
  have hmkq : String.mk (key ++ '=' :: v) ≠ "?" := by
    intro h
    have hd : key ++ '=' :: v = ['?'] := by
      have := congrArg String.data h
      simpa using this
    cases key with
    | nil => exact hne rfl
    | cons k0 krest => simp at hd
  unfold queryStringToObject
  rw [if_neg (by simp [hmkne, hmkq])]
  have hhead : (String.mk (key ++ '=' :: v)).data.head? ≠ some '?' := by
    cases key with
    | nil => exact absurd rfl hne
    | cons k0 krest => simpa using hq
  rw [if_neg hhead]
  dsimp only
  have hsplit : splitOnChar '&' (String.mk (key ++ '=' :: v)).data =
      [key ++ '=' :: v] := by
    apply splitOnChar_no_sep
    intro c hc
    simp at hc
    rcases hc with hc | hc | hc
    · exact (hk c hc).1
    · subst hc; decide
    · exact (hv c hc).1
  rw [hsplit]
  rw [show ([key ++ '=' :: v].filter (fun p => !p.isEmpty)) = [key ++ '=' :: v] by
    cases key <;> simp_all]
  rw [foldlM_singleton]
  unfold processPair
  rw [show splitOnChar '=' (key ++ '=' :: v) = [key, v] by
    rw [splitOnChar_append '=' key v (fun c hc => (hk c hc).2.1),
      splitOnChar_no_sep '=' v (fun c hc => (hv c hc).2.1)]]
  dsimp only
  rw [show decodeParts [key, v] = .ok [key, v] by
    unfold decodeParts
    unfold decodeParts
    rw [pctDecodeList_no_pct key (fun c hc => (hk c hc).2.2),
      pctDecodeList_no_pct v (fun c hc => (hv c hc).2.2)]
    rfl]
  rw [except_bind_ok]
  dsimp only [List.headD]
  rw [if_neg (by simpa using hne)]

theorem jsNumberNotNaN_ne_length (s : String) (h : jsNumberNotNaN s = true) :
    s ≠ "length" := by
  intro he
  subst he
  exact absurd h (by decide)

theorem getElem_replicate_append (i : Nat) (x : Option JSVal) :
    (List.replicate i (none : Option JSVal) ++ [x]).get
      ⟨i, by simp⟩ = x := by
  induction i with
  | zero => rfl
  | succ n ih => simpa using ih

/-- Walking into freshly created containers can never throw: each step
reads an absent (or length-0, falsy) slot, creates the next fresh
container, and writes it under a key that is a plain object key, an
array index, or a non-index array property - never the array length
(the creating step made an array only for a numeric key, and "length"
is not numeric). -/
theorem assignPath_fresh_ok :
    ∀ (rest : List (List Char)) (seg : List Char) (v : Option String) (cur : JSVal),
      (cur = JSVal.obj [] ∨
        (cur = JSVal.arr [] [] ∧
          jsNumberNotNaN (String.mk (cleanSeg seg)) = true)) →
      ∃ r, assignPath cur (seg :: rest) v = .ok r := by
  intro rest
  induction rest with
  | nil =>
      intro seg v cur hcur
      rcases hcur with hobj | ⟨harr, hnum⟩
      · subst hobj
        exact ⟨_, rfl⟩
      · subst harr
        show ∃ r, jsWrite (JSVal.arr [] []) (String.mk (cleanSeg seg))
          (terminalVal v) = .ok r
        unfold jsWrite
        dsimp only
        cases hci : canonIndexS (String.mk (cleanSeg seg)) with
        | some i => exact ⟨_, rfl⟩
        | none =>
            dsimp only
            rw [if_neg (jsNumberNotNaN_ne_length _ hnum)]
            exact ⟨_, rfl⟩
  | cons seg2 rest2 ih =>
      intro seg v cur hcur
      have hfresh : ∀ (fr : JSVal),
          fr = (if jsNumberNotNaN (String.mk (cleanSeg seg2)) then
            JSVal.arr [] [] else JSVal.obj []) →
          (fr = JSVal.obj [] ∨
            (fr = JSVal.arr [] [] ∧
              jsNumberNotNaN (String.mk (cleanSeg seg2)) = true)) := by
        intro fr hfr
        by_cases hn : jsNumberNotNaN (String.mk (cleanSeg seg2)) = true
        · right
          rw [hfr, if_pos hn]
          exact ⟨rfl, hn⟩
        · left
          rw [hfr, if_neg hn]
      rcases hcur with hobj | ⟨harr, hnum⟩
      · subst hobj
        show ∃ r, assignPath (JSVal.obj []) (seg :: seg2 :: rest2) v = .ok r
        unfold assignPath
        dsimp only
        rw [show jsRead (JSVal.obj []) (String.mk (cleanSeg seg)) = none from rfl]
        dsimp only
        obtain ⟨child, hchild⟩ := ih seg2 v _ (hfresh _ rfl)
        rw [show jsWrite (JSVal.obj []) (String.mk (cleanSeg seg))
            (if jsNumberNotNaN (String.mk (cleanSeg seg2)) then
              JSVal.arr [] [] else JSVal.obj []) =
          .ok (JSVal.obj [(String.mk (cleanSeg seg),
            if jsNumberNotNaN (String.mk (cleanSeg seg2)) then
              JSVal.arr [] [] else JSVal.obj [])]) from rfl]
        rw [except_bind_ok]
        rw [show jsRead (JSVal.obj [(String.mk (cleanSeg seg),
            if jsNumberNotNaN (String.mk (cleanSeg seg2)) then
              JSVal.arr [] [] else JSVal.obj [])]) (String.mk (cleanSeg seg)) =
          some (if jsNumberNotNaN (String.mk (cleanSeg seg2)) then
              JSVal.arr [] [] else JSVal.obj []) by
          unfold jsRead lookupField
          rw [if_pos rfl]]
        dsimp only
        rw [hchild, except_bind_ok]
        exact ⟨_, rfl⟩
      · subst harr
        show ∃ r, assignPath (JSVal.arr [] []) (seg :: seg2 :: rest2) v = .ok r
        unfold assignPath
        dsimp only
        have hkl := jsNumberNotNaN_ne_length _ hnum
        have hread : jsRead (JSVal.arr [] []) (String.mk (cleanSeg seg)) = none := by
          unfold jsRead
          dsimp only
          cases hci : canonIndexS (String.mk (cleanSeg seg)) with
          | some i => dsimp only; simp
          | none =>
              dsimp only
              rw [if_neg hkl]
              rfl
        rw [hread]
        dsimp only
        obtain ⟨child, hchild⟩ := ih seg2 v _ (hfresh _ rfl)
        cases hci : canonIndexS (String.mk (cleanSeg seg)) with
        | some i =>
            rw [show jsWrite (JSVal.arr [] []) (String.mk (cleanSeg seg))
                (if jsNumberNotNaN (String.mk (cleanSeg seg2)) then
                  JSVal.arr [] [] else JSVal.obj []) =
              .ok (JSVal.arr (List.replicate i none ++
                [some (if jsNumberNotNaN (String.mk (cleanSeg seg2)) then
                  JSVal.arr [] [] else JSVal.obj [])]) []) by
              unfold jsWrite
              dsimp only
              rw [hci]
              dsimp only
              simp [listSetExtend]]
            rw [except_bind_ok]
            rw [show jsRead (JSVal.arr (List.replicate i none ++
                [some (if jsNumberNotNaN (String.mk (cleanSeg seg2)) then
                  JSVal.arr [] [] else JSVal.obj [])]) [])
                (String.mk (cleanSeg seg)) =
              some (if jsNumberNotNaN (String.mk (cleanSeg seg2)) then
                  JSVal.arr [] [] else JSVal.obj []) by
              unfold jsRead
              dsimp only
              rw [hci]
              dsimp only
              rw [dif_pos (by simp)]
              rw [getElem_replicate_append]]
            dsimp only
            rw [hchild, except_bind_ok]
            unfold jsWrite
            dsimp only
            rw [hci]
            exact ⟨_, rfl⟩
        | none =>
            rw [show jsWrite (JSVal.arr [] []) (String.mk (cleanSeg seg))
                (if jsNumberNotNaN (String.mk (cleanSeg seg2)) then
                  JSVal.arr [] [] else JSVal.obj []) =
              .ok (JSVal.arr [] [(String.mk (cleanSeg seg),
                if jsNumberNotNaN (String.mk (cleanSeg seg2)) then
                  JSVal.arr [] [] else JSVal.obj [])]) by
              unfold jsWrite
              dsimp only
              rw [hci]
              dsimp only
              rw [if_neg hkl]
              rfl]
            rw [except_bind_ok]
            rw [show jsRead (JSVal.arr [] [(String.mk (cleanSeg seg),
                if jsNumberNotNaN (String.mk (cleanSeg seg2)) then
                  JSVal.arr [] [] else JSVal.obj [])]) (String.mk (cleanSeg seg)) =
              some (if jsNumberNotNaN (String.mk (cleanSeg seg2)) then
                  JSVal.arr [] [] else JSVal.obj []) by
              unfold jsRead
              dsimp only
              rw [hci]
              dsimp only
              rw [if_neg hkl]
              unfold lookupField
              rw [if_pos rfl]]
            dsimp only
            rw [hchild, except_bind_ok]
            unfold jsWrite
            dsimp only
            rw [hci]
            dsimp only
            rw [if_neg hkl]
            exact ⟨_, rfl⟩

/-- C9 (amended): stray or unmatched brackets never make decoding
throw - a single nonempty-key pair free of the splitting and escape
characters `&`, `=`, `%` (but with any arrangement of brackets in the
key) always decodes successfully.  Stray bracket characters are not
kept as literal key characters, however: the tokenizer skips them, so
the maximal bracket-free runs (and complete groups) become the
segments, as in the key "a]b[" whose tokens are "a" and "b", and the
pair "a]b[=1" which decodes as the nested mapping a.b = "1". -/
theorem stray_brackets_recovered :
    (∀ (key v : List Char), key ≠ [] →
      (∀ c ∈ key, c ≠ '&' ∧ c ≠ '=' ∧ c ≠ '%') →
      (∀ c ∈ v, c ≠ '&' ∧ c ≠ '=' ∧ c ≠ '%') →
      key.head? ≠ some '?' →
      ∃ r, queryStringToObject (String.mk (key ++ '=' :: v)) = .ok r) ∧
    tokenizeKey "a]b[".data = ["a".data, "b".data] ∧
    queryStringToObject "a]b[=1" =
      .ok (JSVal.obj [("a", JSVal.obj [("b", JSVal.str "1")])]) := by
  refine ⟨?_, rfl, rfl⟩
  intro key v hne hk hv hq
  rw [decode_single_pair key v hne hk hv hq]
  cases htok : tokenizeKey key with
  | nil => exact ⟨_, rfl⟩
  | cons s ss => exact assignPath_fresh_ok ss s _ _ (Or.inl rfl)

/-- C9 counterexample: the claim says stray bracket characters are
treated as literal key characters, but decoding "]x=1" binds the key
"x" - the stray bracket is dropped by the tokenizer, not kept. -/
theorem stray_brackets_not_literal_counterexample :
    queryStringToObject "]x=1" = .ok (JSVal.obj [("x", JSVal.str "1")]) ∧
    JSVal.obj [("x", JSVal.str "1")] ≠ JSVal.obj [("]x", JSVal.str "1")] :=
  ⟨rfl, by simp⟩

/-- Witness for C9: the universal conjunct applied to the
bracket-laden key "a][[b" with value "1". -/
theorem stray_brackets_recovered_witness :
    ∃ r, queryStringToObject (String.mk ("a][[b".data ++ '=' :: "1".data)) = .ok r :=
  stray_brackets_recovered.1 "a][[b".data "1".data (by decide) (by decide)
    (by decide) (by decide)

/-- Decoding the single pair `k=v1=v2`: `split("=")` splits at every
equals sign, the destructuring takes the first two parts, so the bound
value is `v1` and `v2` is discarded. -/
theorem decode_pair_two_eq (k v1 v2 : List Char)
    (hne : k ≠ [])
    (hk : ∀ c ∈ k, (c ≠ '&' ∧ c ≠ '=' ∧ c ≠ '%') ∧ isBracketChar c = false)
    (hv1 : ∀ c ∈ v1, c ≠ '&' ∧ c ≠ '=' ∧ c ≠ '%')
    (hv2 : ∀ c ∈ v2, c ≠ '&' ∧ c ≠ '=' ∧ c ≠ '%')
    (hq : k.head? ≠ some '?') :
    queryStringToObject (String.mk (k ++ '=' :: (v1 ++ '=' :: v2))) =
      .ok (JSVal.obj [(String.mk k, JSVal.str (String.mk v1))]) := by
  have hmkne : String.mk (k ++ '=' :: (v1 ++ '=' :: v2)) ≠ "" := by
    intro h
    have : k ++ '=' :: (v1 ++ '=' :: v2) = [] := by
      have := congrArg String.data h
      simpa using this
    cases k <;> simp_all
  have hmkq : String.mk (k ++ '=' :: (v1 ++ '=' :: v2)) ≠ "?" := by
    intro h
    have hd : k ++ '=' :: (v1 ++ '=' :: v2) = ['?'] := by
      have := congrArg String.data h
      simpa using this
    cases k with
    | nil => exact hne rfl
    | cons k0 krest => simp at hd
  unfold queryStringToObject
  rw [if_neg (by simp [hmkne, hmkq])]
  have hhead : (String.mk (k ++ '=' :: (v1 ++ '=' :: v2))).data.head? ≠ some '?' := by
    cases k with
    | nil => exact absurd rfl hne
    | cons k0 krest => simpa using hq
  rw [if_neg hhead]
  dsimp only
  rw [show splitOnChar '&' (String.mk (k ++ '=' :: (v1 ++ '=' :: v2))).data =
      [k ++ '=' :: (v1 ++ '=' :: v2)] by
    apply splitOnChar_no_sep
    intro c hc
    simp at hc
    rcases hc with hc | hc | hc | hc | hc
    · exact ((hk c hc).1).1
    · subst hc; decide
    · exact (hv1 c hc).1
    · subst hc; decide
    · exact (hv2 c hc).1]
  rw [show ([k ++ '=' :: (v1 ++ '=' :: v2)].filter (fun p => !p.isEmpty)) =
      [k ++ '=' :: (v1 ++ '=' :: v2)] by
    cases k <;> simp_all]
  rw [foldlM_singleton]
  unfold processPair
  rw [show splitOnChar '=' (k ++ '=' :: (v1 ++ '=' :: v2)) = [k, v1, v2] by
    rw [splitOnChar_append '=' k _ (fun c hc => ((hk c hc).1).2.1),
      splitOnChar_append '=' v1 _ (fun c hc => (hv1 c hc).2.1),
      splitOnChar_no_sep '=' v2 (fun c hc => (hv2 c hc).2.1)]]
  dsimp only
  rw [show decodeParts [k, v1, v2] = .ok [k, v1, v2] by
    unfold decodeParts
    unfold decodeParts
    unfold decodeParts
    rw [pctDecodeList_no_pct k (fun c hc => ((hk c hc).1).2.2),
      pctDecodeList_no_pct v1 (fun c hc => (hv1 c hc).2.2),
      pctDecodeList_no_pct v2 (fun c hc => (hv2 c hc).2.2)]
    rfl]
  rw [except_bind_ok]
  dsimp only [List.headD]
  rw [if_neg (by simpa using hne)]
  rw [show tokenizeKey k = [k] from
    tokScan_all_plain k hne (fun c hc => (hk c hc).2)]
  show jsWrite (JSVal.obj []) (String.mk (cleanSeg k)) (terminalVal (some (String.mk v1))) = _
  rw [cleanSeg_plain k (fun c hc => (hk c hc).2)]
  rfl

/-- C8 (amended): each pair is split at every "=", with every part
percent-decoded; the decoded pair binds the first part as the key and
the second as the value, later parts being discarded - so for a pair
k=v1=v2 the decoded value at k is "v1", not "v1=v2".  A discarded part
is still percent-decoded first (conjunct three: a malformed third part
throws), and pairs with no key are dropped (conjunct two). -/
theorem pair_split_takes_first_two_parts :
    (∀ (k v1 v2 : List Char), k ≠ [] →
      (∀ c ∈ k, (c ≠ '&' ∧ c ≠ '=' ∧ c ≠ '%') ∧ isBracketChar c = false) →
      (∀ c ∈ v1, c ≠ '&' ∧ c ≠ '=' ∧ c ≠ '%') →
      (∀ c ∈ v2, c ≠ '&' ∧ c ≠ '=' ∧ c ≠ '%') →
      k.head? ≠ some '?' →
      queryStringToObject (String.mk (k ++ '=' :: (v1 ++ '=' :: v2))) =
        .ok (JSVal.obj [(String.mk k, JSVal.str (String.mk v1))])) ∧
    queryStringToObject "=abc" = .ok (JSVal.obj []) ∧
    queryStringToObject "k=v=%" = .error "URIError" :=
  ⟨decode_pair_two_eq, rfl, rfl⟩

/-- Witness for C8: the universal conjunct at the pair "k=v1=v2". -/
theorem pair_split_takes_first_two_parts_witness :
    queryStringToObject (String.mk ("k".data ++ '=' :: ("v1".data ++ '=' :: "v2".data))) =
      .ok (JSVal.obj [("k", JSVal.str "v1")]) :=
  pair_split_takes_first_two_parts.1 "k".data "v1".data "v2".data
    (by decide) (by decide) (by decide) (by decide) (by decide)

/-- C8 counterexample: the claim says the value bound at k for the pair
k=v1=v2 is "v1=v2"; the code splits at every "=" and keeps only the
second part, binding "v1". -/
theorem pair_split_counterexample :
    queryStringToObject "k=v1=v2" = .ok (JSVal.obj [("k", JSVal.str "v1")]) ∧
    JSVal.obj [("k", JSVal.str "v1")] ≠ JSVal.obj [("k", JSVal.str "v1=v2")] :=
  ⟨rfl, by simp⟩

/-- Modelled from the claim's words, not from the source: a key segment
that "parses as a non-negative integer" - one or more decimal digits and
nothing else. -/
def specNonNegIntSegment (s : String) : Bool :=
  !s.data.isEmpty && s.data.all Char.isDigit

/-- Decoding the single pair `k[b]=v` with `k` and `b` bracket-free: the
lookahead at `b` creates an array exactly when `Number(b)` is not NaN
(the code's `!isNaN(Number(nextSegment))` test), and the terminal write
into the fresh array lands in the element list only when `b` is a
canonical array index, otherwise in the non-index property list. -/
theorem decode_key_group (k b v : List Char)
    (hkne : k ≠ [])
    (hk : ∀ c ∈ k, (c ≠ '&' ∧ c ≠ '=' ∧ c ≠ '%') ∧ isBracketChar c = false)
    (hb : ∀ c ∈ b, (c ≠ '&' ∧ c ≠ '=' ∧ c ≠ '%') ∧ isBracketChar c = false)
    (hv : ∀ c ∈ v, c ≠ '&' ∧ c ≠ '=' ∧ c ≠ '%')
    (hq : k.head? ≠ some '?') :
    queryStringToObject (String.mk ((k ++ '[' :: (b ++ [']'])) ++ '=' :: v)) =
      .ok (JSVal.obj [(String.mk k,
        if jsNumberNotNaN (String.mk b) then
          match canonIndexS (String.mk b) with
          | some i =>
              JSVal.arr (List.replicate i none ++ [some (JSVal.str (String.mk v))]) []
          | none => JSVal.arr [] [(String.mk b, JSVal.str (String.mk v))]
        else JSVal.obj [(String.mk b, JSVal.str (String.mk v))])]) := by
  have hkey : ∀ c ∈ k ++ '[' :: (b ++ [']']), c ≠ '&' ∧ c ≠ '=' ∧ c ≠ '%' := by
    intro c hc
    simp at hc
    rcases hc with hc | hc | hc | hc
    · exact (hk c hc).1
    · subst hc; exact ⟨by decide, by decide, by decide⟩
    · exact (hb c hc).1
    · subst hc; exact ⟨by decide, by decide, by decide⟩
  have hkeyne : k ++ '[' :: (b ++ [']']) ≠ [] := by
    cases k <;> simp
  have hkeyq : (k ++ '[' :: (b ++ [']'])).head? ≠ some '?' := by
    cases k with
    | nil => exact absurd rfl hkne
    | cons c r => simpa using hq
  rw [decode_single_pair _ v hkeyne hkey hv hkeyq]
  rw [show tokenizeKey (k ++ '[' :: (b ++ [']'])) = [k, '[' :: (b ++ [']'])] by
    show tokScan _ = _
    rw [tokScan_key_group k b [] hkne (fun c hc => (hk c hc).2)
      (fun c hc => (hb c hc).2)]
    rfl]
  dsimp only
  unfold assignPath
  dsimp only
  rw [cleanSeg_plain k (fun c hc => (hk c hc).2),
    cleanSeg_group b (fun c hc => (hb c hc).2)]
  rw [show jsRead (JSVal.obj []) (String.mk k) = none from rfl]
  dsimp only
  by_cases hn : jsNumberNotNaN (String.mk b) = true
  · simp only [if_pos hn]
    rw [show jsWrite (JSVal.obj []) (String.mk k) (JSVal.arr [] []) =
        .ok (JSVal.obj [(String.mk k, JSVal.arr [] [])]) from rfl, except_bind_ok]
    rw [show jsRead (JSVal.obj [(String.mk k, JSVal.arr [] [])]) (String.mk k) =
        some (JSVal.arr [] []) by
      unfold jsRead lookupField
      rw [if_pos rfl]]
    dsimp only
    rw [show assignPath (JSVal.arr [] []) ['[' :: (b ++ [']'])]
        (some (String.mk v)) =
      jsWrite (JSVal.arr [] []) (String.mk b) (JSVal.str (String.mk v)) by
      unfold assignPath
      rw [cleanSeg_group b (fun c hc => (hb c hc).2)]
      rfl]
    unfold jsWrite
    dsimp only
    cases hci : canonIndexS (String.mk b) with
    | some i =>
        dsimp only
        rw [show listSetExtend [] i (JSVal.str (String.mk v)) =
            List.replicate i none ++ [some (JSVal.str (String.mk v))] by
          simp [listSetExtend]]
        rw [except_bind_ok]
        simp [updateField]
    | none =>
        dsimp only
        rw [if_neg (jsNumberNotNaN_ne_length _ hn)]
        rw [except_bind_ok]
        simp [updateField]
  · simp only [if_neg hn]
    rw [show jsWrite (JSVal.obj []) (String.mk k) (JSVal.obj []) =
        .ok (JSVal.obj [(String.mk k, JSVal.obj [])]) from rfl, except_bind_ok]
    rw [show jsRead (JSVal.obj [(String.mk k, JSVal.obj [])]) (String.mk k) =
        some (JSVal.obj []) by
      unfold jsRead lookupField
      rw [if_pos rfl]]
    dsimp only
    rw [show assignPath (JSVal.obj []) ['[' :: (b ++ [']'])]
        (some (String.mk v)) =
      Except.ok (JSVal.obj [(String.mk b, JSVal.str (String.mk v))]) by
      unfold assignPath
      rw [cleanSeg_group b (fun c hc => (hb c hc).2)]
      rfl]
    rw [except_bind_ok]
    simp [jsWrite, updateField]

/-- C5 (amended): at an intermediate segment the walk creates a fresh
container whenever the slot is absent or holds a falsy value (not only
on the first encounter of its path), and the fresh container is the
Sequence-like array exactly when `Number(nextSegment)` is not NaN - a
strictly wider test than "parses as a non-negative integer", accepting
for instance "-1", "1.5" or "" as well; the spec's two examples hold,
and a falsy value previously stored at the path is discarded in favour
of a freshly created container. -/
theorem lookahead_container_choice :
    (∀ (k b v : List Char), k ≠ [] →
      (∀ c ∈ k, (c ≠ '&' ∧ c ≠ '=' ∧ c ≠ '%') ∧ isBracketChar c = false) →
      (∀ c ∈ b, (c ≠ '&' ∧ c ≠ '=' ∧ c ≠ '%') ∧ isBracketChar c = false) →
      (∀ c ∈ v, c ≠ '&' ∧ c ≠ '=' ∧ c ≠ '%') →
      k.head? ≠ some '?' →
      queryStringToObject (String.mk ((k ++ '[' :: (b ++ [']'])) ++ '=' :: v)) =
        .ok (JSVal.obj [(String.mk k,
          if jsNumberNotNaN (String.mk b) then
            match canonIndexS (String.mk b) with
            | some i => JSVal.arr
                (List.replicate i none ++ [some (JSVal.str (String.mk v))]) []
            | none => JSVal.arr [] [(String.mk b, JSVal.str (String.mk v))]
          else JSVal.obj [(String.mk b, JSVal.str (String.mk v))])])) ∧
    queryStringToObject "filters[0][key]=a&filters[0][value]=b" =
      .ok (JSVal.obj [("filters",
        JSVal.arr [some (JSVal.obj [("key", JSVal.str "a"),
          ("value", JSVal.str "b")])] [])]) ∧
    queryStringToObject "user[name]=a" =
      .ok (JSVal.obj [("user", JSVal.obj [("name", JSVal.str "a")])]) ∧
    queryStringToObject "a=&a[b]=x" =
      .ok (JSVal.obj [("a", JSVal.obj [("b", JSVal.str "x")])]) :=
  ⟨decode_key_group, rfl, rfl, rfl⟩

/-- C5 counterexample: the next segment "-1" does not parse as a
non-negative integer, yet the code's `!isNaN(Number(nextSegment))` test
accepts it and creates the Sequence-like array container (the value then
lands in a non-index array property), not the Mapping the claim
prescribes; and containers are not created only on the first encounter
of a path: a falsy value stored at the path is discarded and a second,
fresh container created. -/
theorem lookahead_counterexample :
    queryStringToObject "a[-1]=x" =
      .ok (JSVal.obj [("a", JSVal.arr [] [("-1", JSVal.str "x")])]) ∧
    specNonNegIntSegment "-1" = false ∧
    JSVal.arr [] [("-1", JSVal.str "x")] ≠ JSVal.obj [("-1", JSVal.str "x")] ∧
    queryStringToObject "a[b]=x&a=&a[c]=y" =
      .ok (JSVal.obj [("a", JSVal.obj [("c", JSVal.str "y")])]) :=
  ⟨rfl, rfl, by simp, rfl⟩

/-- Witness for C5: the universal conjunct at the pair "tags[3]=x". -/
theorem lookahead_container_choice_witness :
    queryStringToObject
        (String.mk (("tags".data ++ '[' :: ("3".data ++ [']'])) ++ '=' :: "x".data)) =
      .ok (JSVal.obj [(String.mk "tags".data,
        if jsNumberNotNaN (String.mk "3".data) then
          match canonIndexS (String.mk "3".data) with
          | some i => JSVal.arr
              (List.replicate i none ++ [some (JSVal.str (String.mk "x".data))]) []
          | none => JSVal.arr []
              [(String.mk "3".data, JSVal.str (String.mk "x".data))]
        else JSVal.obj [(String.mk "3".data, JSVal.str (String.mk "x".data))])]) :=
  lookahead_container_choice.1 "tags".data "3".data "x".data
    (by decide) (by decide) (by decide) (by decide) (by decide)

theorem hexDigitVal_hexCharUpper : ∀ m < 16, hexDigitVal (hexCharUpper m) = some m := by
  decide

/-- One percent-escaped byte scans back to exactly that byte unit. -/
theorem pctUnits_pctByte (b : Nat) (hb : b < 256) (rest : List Char) :
    pctUnits (pctByte b ++ rest) = (pctUnits rest).map (fun us => .inr b :: us) := by
  show pctUnits ('%' :: hexCharUpper (b / 16) :: hexCharUpper (b % 16) :: rest) = _
  rw [pctUnits, if_pos rfl, pctEsc,
    hexDigitVal_hexCharUpper (b / 16) (by omega),
    hexDigitVal_hexCharUpper (b % 16) (by omega)]
  dsimp only
  rw [show b / 16 * 16 + b % 16 = b by omega]

/-- The unit list encodeURIComponent produces for one character. -/
def encUnit (c : Char) : List (Sum Char Nat) :=
  if uriUnreserved c then [Sum.inl c] else (utf8Bytes c).map Sum.inr

theorem char_toNat_lt (c : Char) : c.toNat < 1114112 := by
  show c.val.toNat < 1114112
  rcases c.valid with h | ⟨h1, h2⟩
  · omega
  · omega

theorem utf8Bytes_lt_256 (c : Char) : ∀ b ∈ utf8Bytes c, b < 256 := by
  intro b hb
  have hc := char_toNat_lt c
  unfold utf8Bytes at hb
  dsimp only at hb
  by_cases h1 : c.toNat < 128
  · rw [if_pos h1] at hb
    simp at hb
    omega
  · rw [if_neg h1] at hb
    by_cases h2 : c.toNat < 2048
    · rw [if_pos h2] at hb
      simp at hb
      rcases hb with hb | hb <;> omega
    · rw [if_neg h2] at hb
      by_cases h3 : c.toNat < 65536
      · rw [if_pos h3] at hb
        simp at hb
        rcases hb with hb | hb | hb <;> omega
      · rw [if_neg h3] at hb
        simp at hb
        rcases hb with hb | hb | hb | hb <;> omega

/-- A run of percent-escaped bytes scans back to those byte units. -/
theorem pctUnits_bytes (bs : List Nat) (h : ∀ b ∈ bs, b < 256) (rest : List Char) :
    pctUnits (bs.foldr (fun b acc => pctByte b ++ acc) [] ++ rest) =
      (pctUnits rest).map (fun us => bs.map Sum.inr ++ us) := by
  induction bs with
  | nil =>
      dsimp only [List.foldr, List.map]
      rw [List.nil_append]
      cases hx : pctUnits rest <;> rfl
  | cons b bs ih =>
      rw [List.foldr_cons, List.append_assoc,
        pctUnits_pctByte b (h b (List.mem_cons_self b bs)) _,
        ih (fun x hx => h x (List.mem_cons_of_mem b hx))]
      cases hx : pctUnits rest <;> rfl

theorem pctUnits_encChar (c : Char) (rest : List Char) :
    pctUnits (encChar c ++ rest) =
      (pctUnits rest).map (fun us => encUnit c ++ us) := by
  by_cases h : uriUnreserved c = true
  · unfold encChar encUnit
    rw [if_pos h, if_pos h]
    show pctUnits (c :: rest) = _
    rw [pctUnits,
      if_neg (show ¬(c = '%') from fun he => by subst he; exact absurd h (by decide))]
    cases hx : pctUnits rest <;> rfl
  · unfold encChar encUnit
    rw [if_neg h, if_neg h]
    exact pctUnits_bytes _ (utf8Bytes_lt_256 c) rest

theorem char_valid_range (c : Char) :
    c.toNat < 55296 ∨ (57344 ≤ c.toNat ∧ c.toNat < 1114112) := by
  rcases c.valid with h | ⟨h1, h2⟩
  · exact Or.inl h
  · exact Or.inr ⟨h1, h2⟩

/-- The units of one encoded character decode back to that character:
raw units stand for themselves, and the UTF-8 byte sequence of a scalar
value passes every length, overlong-form and surrogate check of the
decoder and reassembles the original code point. -/
theorem unitsDecode_encUnit (c : Char) (us : List (Sum Char Nat)) :
    unitsDecode (encUnit c ++ us) = (unitsDecode us).map (fun cs => c :: cs) := by
  by_cases h : uriUnreserved c = true
  · rw [encUnit, if_pos h]
    rfl
  · rw [encUnit, if_neg h]
    by_cases h1 : c.toNat < 128
    · rw [show utf8Bytes c = [c.toNat] by
        unfold utf8Bytes
        rw [if_pos h1]]
      show unitsDecode (Sum.inr c.toNat :: us) = _
      rw [unitsDecode, if_pos h1, Char.ofNat_toNat]
    · by_cases h2 : c.toNat < 2048
      · rw [show utf8Bytes c = [192 + c.toNat / 64, 128 + c.toNat % 64] by
          unfold utf8Bytes
          rw [if_neg h1, if_pos h2]]
        show unitsDecode (Sum.inr (192 + c.toNat / 64) ::
          Sum.inr (128 + c.toNat % 64) :: us) = _
        rw [unitsDecode, if_neg (by omega), if_neg (by omega), if_pos (by omega),
          unitsDecode2,
          if_pos (show (decide (128 ≤ 128 + c.toNat % 64) &&
              decide (128 + c.toNat % 64 < 192)) = true by
            simp only [Bool.and_eq_true, decide_eq_true_eq]
            exact ⟨by omega, by omega⟩),
          if_pos (by omega : 128 ≤ (192 + c.toNat / 64 - 192) * 64 +
            (128 + c.toNat % 64 - 128)),
          show (192 + c.toNat / 64 - 192) * 64 + (128 + c.toNat % 64 - 128) =
            c.toNat by omega,
          Char.ofNat_toNat]
      · by_cases h3 : c.toNat < 65536
        · rw [show utf8Bytes c = [224 + c.toNat / 4096, 128 + c.toNat / 64 % 64,
              128 + c.toNat % 64] by
            unfold utf8Bytes
            rw [if_neg h1, if_neg h2, if_pos h3]]
          show unitsDecode (Sum.inr (224 + c.toNat / 4096) ::
            Sum.inr (128 + c.toNat / 64 % 64) :: Sum.inr (128 + c.toNat % 64) :: us) = _
          rw [unitsDecode, if_neg (by omega), if_neg (by omega), if_neg (by omega),
            if_pos (by omega), unitsDecode3,
            if_pos (show ((decide (128 ≤ 128 + c.toNat / 64 % 64) &&
                decide (128 + c.toNat / 64 % 64 < 192)) &&
                (decide (128 ≤ 128 + c.toNat % 64) &&
                decide (128 + c.toNat % 64 < 192))) = true by
              simp only [Bool.and_eq_true, decide_eq_true_eq]
              exact ⟨⟨by omega, by omega⟩, by omega, by omega⟩),
            show (224 + c.toNat / 4096 - 224) * 4096 +
                (128 + c.toNat / 64 % 64 - 128) * 64 + (128 + c.toNat % 64 - 128) =
              c.toNat by omega,
            if_pos (show (decide (2048 ≤ c.toNat) &&
                !(decide (55296 ≤ c.toNat) && decide (c.toNat ≤ 57343))) = true by
              simp only [Bool.and_eq_true, decide_eq_true_eq, Bool.not_eq_true',
                Bool.and_eq_false_iff, decide_eq_false_iff_not]
              rcases char_valid_range c with hv | hv
              · exact ⟨by omega, Or.inl (by omega)⟩
              · exact ⟨by omega, Or.inr (by omega)⟩),
            Char.ofNat_toNat]
        · have h4 := char_toNat_lt c
          rw [show utf8Bytes c = [240 + c.toNat / 262144, 128 + c.toNat / 4096 % 64,
              128 + c.toNat / 64 % 64, 128 + c.toNat % 64] by
            unfold utf8Bytes
            rw [if_neg h1, if_neg h2, if_neg h3]]
          show unitsDecode (Sum.inr (240 + c.toNat / 262144) ::
            Sum.inr (128 + c.toNat / 4096 % 64) :: Sum.inr (128 + c.toNat / 64 % 64) ::
            Sum.inr (128 + c.toNat % 64) :: us) = _
          rw [unitsDecode, if_neg (by omega), if_neg (by omega), if_neg (by omega),
            if_neg (by omega), if_pos (by omega), unitsDecode4,
            if_pos (show (((decide (128 ≤ 128 + c.toNat / 4096 % 64) &&
                decide (128 + c.toNat / 4096 % 64 < 192)) &&
                (decide (128 ≤ 128 + c.toNat / 64 % 64) &&
                decide (128 + c.toNat / 64 % 64 < 192))) &&
                (decide (128 ≤ 128 + c.toNat % 64) &&
                decide (128 + c.toNat % 64 < 192))) = true by
              simp only [Bool.and_eq_true, decide_eq_true_eq]
              exact ⟨⟨⟨by omega, by omega⟩, by omega, by omega⟩, by omega, by omega⟩),
            show (240 + c.toNat / 262144 - 240) * 262144 +
                (128 + c.toNat / 4096 % 64 - 128) * 4096 +
                (128 + c.toNat / 64 % 64 - 128) * 64 + (128 + c.toNat % 64 - 128) =
              c.toNat by omega,
            if_pos (show (decide (65536 ≤ c.toNat) &&
                decide (c.toNat < 1114112)) = true by
              simp only [Bool.and_eq_true, decide_eq_true_eq]
              exact ⟨by omega, by omega⟩),
            Char.ofNat_toNat]

theorem pctUnits_enc (l : List Char) :
    pctUnits (encodeURIComponentList l) = .ok (l.flatMap encUnit) := by
  induction l with
  | nil => rfl
  | cons c rest ih =>
      show pctUnits (encChar c ++ encodeURIComponentList rest) = _
      rw [pctUnits_encChar, ih]
      rfl

theorem unitsDecode_encUnits (l : List Char) :
    unitsDecode (l.flatMap encUnit) = .ok l := by
  induction l with
  | nil => rfl
  | cons c rest ih =>
      show unitsDecode (encUnit c ++ rest.flatMap encUnit) = _
      rw [unitsDecode_encUnit, ih]
      rfl

/-- decodeURIComponent is a left inverse of encodeURIComponent. -/
theorem pct_roundtrip (l : List Char) :
    pctDecodeList (encodeURIComponentList l) = .ok l := by
  unfold pctDecodeList
  rw [pctUnits_enc, except_bind_ok, unitsDecode_encUnits]

theorem hexCharUpper_safe : ∀ m < 16,
    hexCharUpper m ≠ '&' ∧ hexCharUpper m ≠ '=' ∧ hexCharUpper m ≠ '?' := by
  decide

theorem pctByte_mem_safe (b : Nat) (hb : b < 256) :
    ∀ c ∈ pctByte b, c ≠ '&' ∧ c ≠ '=' ∧ c ≠ '?' := by
  intro c hc
  simp [pctByte] at hc
  rcases hc with hc | hc | hc
  · subst hc; exact ⟨by decide, by decide, by decide⟩
  · subst hc; exact hexCharUpper_safe _ (by omega)
  · subst hc; exact hexCharUpper_safe _ (by omega)

theorem foldr_pctByte_mem (bs : List Nat) (c : Char)
    (hc : c ∈ bs.foldr (fun b acc => pctByte b ++ acc) []) :
    ∃ b ∈ bs, c ∈ pctByte b := by
  induction bs with
  | nil => simp at hc
  | cons b bs ih =>
      rw [List.foldr_cons] at hc
      rcases List.mem_append.mp hc with hc | hc
      · exact ⟨b, List.mem_cons_self b bs, hc⟩
      · obtain ⟨b2, hb2, hc2⟩ := ih hc
        exact ⟨b2, List.mem_cons_of_mem b hb2, hc2⟩

/-- No character of an encodeURIComponent output is a pair or key-value
separator or a leading question mark. -/
theorem enc_mem_safe (l : List Char) :
    ∀ c ∈ encodeURIComponentList l, c ≠ '&' ∧ c ≠ '=' ∧ c ≠ '?' := by
  induction l with
  | nil =>
      intro c hc
      simp [encodeURIComponentList] at hc
  | cons d rest ih =>
      intro c hc
      rw [show encodeURIComponentList (d :: rest) =
          encChar d ++ encodeURIComponentList rest from rfl] at hc
      rcases List.mem_append.mp hc with hc | hc
      · unfold encChar at hc
        by_cases h : uriUnreserved d = true
        · rw [if_pos h] at hc
          simp at hc
          subst hc
          refine ⟨?_, ?_, ?_⟩ <;> intro he <;> subst he <;> exact absurd h (by decide)
        · rw [if_neg h] at hc
          obtain ⟨b, hb, hcb⟩ := foldr_pctByte_mem _ c hc
          exact pctByte_mem_safe b (utf8Bytes_lt_256 d b hb) c hcb
      · exact ih c hc

theorem utf8Bytes_ne_nil (c : Char) : utf8Bytes c ≠ [] := by
  unfold utf8Bytes
  dsimp only
  by_cases h1 : c.toNat < 128
  · rw [if_pos h1]; simp
  · rw [if_neg h1]
    by_cases h2 : c.toNat < 2048
    · rw [if_pos h2]; simp
    · rw [if_neg h2]
      by_cases h3 : c.toNat < 65536
      · rw [if_pos h3]; simp
      · rw [if_neg h3]; simp

theorem encChar_ne_nil (c : Char) : encChar c ≠ [] := by
  unfold encChar
  by_cases h : uriUnreserved c = true
  · rw [if_pos h]; simp
  · rw [if_neg h]
    cases hbs : utf8Bytes c with
    | nil => exact absurd hbs (utf8Bytes_ne_nil c)
    | cons b bs =>
        rw [List.foldr_cons]
        show pctByte b ++ _ ≠ []
        simp [pctByte]

theorem enc_ne_nil (l : List Char) (h : l ≠ []) : encodeURIComponentList l ≠ [] := by
  cases l with
  | nil => exact absurd rfl h
  | cons c rest =>
      show encChar c ++ _ ≠ []
      intro he
      exact encChar_ne_nil c (List.append_eq_nil.mp he).1

/-- Scalar leaves the encoder emits as `enc(key)=enc(String(value))`. -/
def isScalarLeaf : JSVal → Bool
  | .str _ => true
  | .intNum _ => true
  | .boolean _ => true
  | _ => false

mutual
/-- Modelled from the claim's words, not from the source: the value with
"every scalar normalized to its string form", containers kept
structurally intact. -/
def specNormalize : JSVal → JSVal
  | .str s => .str s
  | .intNum n => .str (intRepr n)
  | .boolean b => .str (cond b "true" "false")
  | .null => .str "null"
  | .undef => .undef
  | .obj fields => .obj (specNormalizeFields fields)
  | .arr elems props => .arr (specNormalizeElems elems) (specNormalizeFields props)
termination_by structural v => v

def specNormalizeFields : List (String × JSVal) → List (String × JSVal)
  | [] => []
  | (k, v) :: rest => (k, specNormalize v) :: specNormalizeFields rest
termination_by structural l => l

def specNormalizeElems : List (Option JSVal) → List (Option JSVal)
  | [] => []
  | none :: rest => none :: specNormalizeElems rest
  | some v :: rest => some (specNormalize v) :: specNormalizeElems rest
termination_by structural l => l
end

theorem specNormalize_scalar_obj (entries : List (String × JSVal))
    (h : ∀ p ∈ entries, isScalarLeaf p.2 = true) :
    specNormalize (JSVal.obj entries) =
      JSVal.obj (entries.map (fun p => (p.1, JSVal.str (scalarString p.2)))) := by
  rw [specNormalize]
  congr 1
  induction entries with
  | nil => rfl
  | cons e rest ih =>
      obtain ⟨k, v⟩ := e
      have hv := h ⟨k, v⟩ (List.mem_cons_self _ _)
      rw [specNormalizeFields, List.map_cons,
        ih (fun p hp => h p (List.mem_cons_of_mem _ hp))]
      cases v <;> first
        | rfl
        | exact absurd hv (by simp [isScalarLeaf])

theorem qsFields_scalars (entries : List (String × JSVal))
    (h : ∀ p ∈ entries, isScalarLeaf p.2 = true) :
    qsFields entries "" = entries.map (fun p =>
      jsEncodeURIComponent p.1 ++ "=" ++ jsEncodeURIComponent (scalarString p.2)) := by
  induction entries with
  | nil => rfl
  | cons e rest ih =>
      obtain ⟨k, v⟩ := e
      have hv := h ⟨k, v⟩ (List.mem_cons_self _ _)
      rw [qsFields, List.map_cons, ih (fun p hp => h p (List.mem_cons_of_mem _ hp))]
      cases v <;> first
        | rfl
        | exact absurd hv (by simp [isScalarLeaf])

/-- Processing one encoded pair over the object built so far: both parts
percent-decode back to the originals, the bracket-free key tokenizes to
itself and the write is a plain object-property update. -/
theorem processPair_enc (acc : List (String × JSVal)) (k sv : String)
    (hk : k.data ≠ []) (hkb : ∀ c ∈ k.data, isBracketChar c = false) :
    processPair (JSVal.obj acc)
        (encodeURIComponentList k.data ++ '=' :: encodeURIComponentList sv.data) =
      .ok (JSVal.obj (updateField acc k (JSVal.str sv))) := by
  unfold processPair
  rw [show splitOnChar '='
      (encodeURIComponentList k.data ++ '=' :: encodeURIComponentList sv.data) =
      [encodeURIComponentList k.data, encodeURIComponentList sv.data] by
    rw [splitOnChar_append '=' _ _ (fun c hc => (enc_mem_safe _ c hc).2.1),
      splitOnChar_no_sep '=' _ (fun c hc => (enc_mem_safe _ c hc).2.1)]]
  dsimp only
  rw [show decodeParts [encodeURIComponentList k.data,
      encodeURIComponentList sv.data] = .ok [k.data, sv.data] by
    unfold decodeParts
    unfold decodeParts
    rw [pct_roundtrip k.data, pct_roundtrip sv.data]
    rfl]
  rw [except_bind_ok]
  dsimp only [List.headD]
  rw [if_neg (by simpa using hk)]
  rw [show tokenizeKey k.data = [k.data] from tokScan_all_plain k.data hk hkb]
  show jsWrite (JSVal.obj acc) (String.mk (cleanSeg k.data))
    (terminalVal (some (String.mk sv.data))) = _
  rw [cleanSeg_plain k.data hkb]
  rfl

/-- The string pushed for one flat scalar entry. -/
def encPairStr (p : String × JSVal) : String :=
  jsEncodeURIComponent p.1 ++ "=" ++ jsEncodeURIComponent (scalarString p.2)

/-- The same pair at the character level. -/
def encPairChars (p : String × JSVal) : List Char :=
  encodeURIComponentList p.1.data ++ '=' ::
    encodeURIComponentList (scalarString p.2).data

theorem encPair_data (p : String × JSVal) : (encPairStr p).data = encPairChars p := by
  unfold encPairStr encPairChars
  rw [String.data_append, String.data_append,
    show (jsEncodeURIComponent p.1).data = encodeURIComponentList p.1.data from rfl,
    show ("=" : String).data = ['='] from rfl,
    show (jsEncodeURIComponent (scalarString p.2)).data =
      encodeURIComponentList (scalarString p.2).data from rfl]
  simp

theorem data_intercalate_go (parts : List String) :
    ∀ acc : String, (String.intercalate.go acc "&" parts).data =
      acc.data ++ parts.flatMap (fun p => '&' :: p.data) := by
  induction parts with
  | nil =>
      intro acc
      simp [String.intercalate.go]
  | cons p rest ih =>
      intro acc
      rw [show String.intercalate.go acc "&" (p :: rest) =
          String.intercalate.go (acc ++ "&" ++ p) "&" rest from rfl, ih,
        String.data_append, String.data_append,
        show ("&" : String).data = ['&'] from rfl]
      simp

theorem data_intercalate_amp (p : String) (parts : List String) :
    (String.intercalate "&" (p :: parts)).data =
      p.data ++ parts.flatMap (fun q => '&' :: q.data) := by
  show (String.intercalate.go p "&" parts).data = _
  exact data_intercalate_go parts p

theorem splitAmp_join (p : List Char) (parts : List String)
    (hp : ∀ c ∈ p, c ≠ '&') (hparts : ∀ q ∈ parts, ∀ c ∈ q.data, c ≠ '&') :
    splitOnChar '&' (p ++ parts.flatMap (fun q => '&' :: q.data)) =
      p :: parts.map String.data := by
  induction parts generalizing p with
  | nil =>
      rw [List.flatMap_nil, List.append_nil, List.map_nil]
      exact splitOnChar_no_sep '&' p hp
  | cons q rest ih =>
      rw [List.flatMap_cons,
        show p ++ (('&' :: q.data) ++ rest.flatMap (fun r => '&' :: r.data)) =
          p ++ '&' :: (q.data ++ rest.flatMap (fun r => '&' :: r.data)) by simp,
        splitOnChar_append '&' p _ hp,
        ih q.data (hparts q (List.mem_cons_self q rest))
          (fun r hr => hparts r (List.mem_cons_of_mem q hr)),
        List.map_cons]

theorem foldlM_cons (f : JSVal → List Char → Except String JSVal) (b : JSVal)
    (a : List Char) (as : List (List Char)) :
    List.foldlM f b (a :: as) = f b a >>= fun x => List.foldlM f x as := by
  simp [List.foldlM]

theorem foldlM_processPair_enc (entries : List (String × JSVal)) :
    ∀ acc : List (String × JSVal),
    (∀ p ∈ entries, p.1.data ≠ [] ∧ (∀ c ∈ p.1.data, isBracketChar c = false)) →
    List.foldlM processPair (JSVal.obj acc) (entries.map encPairChars) =
      .ok (JSVal.obj (entries.foldl
        (fun a p => updateField a p.1 (JSVal.str (scalarString p.2))) acc)) := by
  induction entries with
  | nil =>
      intro acc _
      rfl
  | cons e rest ih =>
      intro acc h
      rw [List.map_cons, foldlM_cons,
        show encPairChars e = encodeURIComponentList e.1.data ++ '=' ::
          encodeURIComponentList (scalarString e.2).data from rfl,
        processPair_enc acc e.1 (scalarString e.2)
          (h e (List.mem_cons_self e rest)).1 (h e (List.mem_cons_self e rest)).2,
        except_bind_ok, List.foldl_cons]
      exact ih _ (fun p hp => h p (List.mem_cons_of_mem e hp))

theorem updateField_append (acc : List (String × JSVal)) (k : String) (v : JSVal)
    (h : lookupField acc k = none) : updateField acc k v = acc ++ [(k, v)] := by
  induction acc with
  | nil => rfl
  | cons p rest ih =>
      obtain ⟨k2, w⟩ := p
      by_cases he : k2 = k
      · rw [lookupField, if_pos he] at h
        exact absurd h (by simp)
      · rw [lookupField, if_neg he] at h
        rw [updateField, if_neg he, ih h]
        simp

theorem lookupField_append_none (a b : List (String × JSVal)) (k : String)
    (ha : lookupField a k = none) (hb : lookupField b k = none) :
    lookupField (a ++ b) k = none := by
  induction a with
  | nil => simpa using hb
  | cons p rest ih =>
      obtain ⟨k2, w⟩ := p
      by_cases he : k2 = k
      · rw [lookupField, if_pos he] at ha
        exact absurd ha (by simp)
      · rw [lookupField, if_neg he] at ha
        rw [List.cons_append, lookupField, if_neg he]
        exact ih ha

theorem foldl_update_fresh (entries : List (String × JSVal)) :
    ∀ acc : List (String × JSVal),
      (∀ p ∈ entries, lookupField acc p.1 = none) →
      (entries.map Prod.fst).Nodup →
      entries.foldl (fun a p => updateField a p.1 (JSVal.str (scalarString p.2))) acc =
        acc ++ entries.map (fun p => (p.1, JSVal.str (scalarString p.2))) := by
  induction entries with
  | nil =>
      intro acc _ _
      simp
  | cons e rest ih =>
      intro acc hfresh hnd
      simp only [List.map_cons] at hnd
      have hnotin : e.1 ∉ rest.map Prod.fst := (List.nodup_cons.mp hnd).1
      rw [List.foldl_cons, updateField_append acc e.1 _
        (hfresh e (List.mem_cons_self e rest)), List.map_cons,
        ih (acc ++ [(e.1, JSVal.str (scalarString e.2))]) ?_ (List.nodup_cons.mp hnd).2]
      · simp
      · intro p hp
        apply lookupField_append_none
        · exact hfresh p (List.mem_cons_of_mem e hp)
        · have hm : p.1 ∈ rest.map Prod.fst := List.mem_map_of_mem Prod.fst hp
          rw [lookupField, if_neg (fun he => hnotin (by rw [he]; exact hm))]
          rfl

theorem encPairChars_no_amp (p : String × JSVal) : ∀ c ∈ encPairChars p, c ≠ '&' := by
  intro c hc
  unfold encPairChars at hc
  rcases List.mem_append.mp hc with hc | hc
  · exact (enc_mem_safe _ c hc).1
  · rcases List.mem_cons.mp hc with hc | hc
    · subst hc; decide
    · exact (enc_mem_safe _ c hc).1

theorem encPairChars_ne_nil (p : String × JSVal) : encPairChars p ≠ [] := by
  unfold encPairChars
  simp

theorem roundtrip_flat_scalar_mappings_aux :
    ∀ (entries : List (String × JSVal)),
      entries ≠ [] →
      (∀ p ∈ entries, p.1.data ≠ [] ∧
        (∀ c ∈ p.1.data, isBracketChar c = false) ∧ isScalarLeaf p.2 = true) →
      (entries.map Prod.fst).Nodup →
      queryStringToObject (objectToQueryString (JSVal.obj entries) "") =
        .ok (specNormalize (JSVal.obj entries)) := by
  intro entries hne hwf hnd
  have henc : objectToQueryString (JSVal.obj entries) "" =
      String.intercalate "&" (entries.map encPairStr) := by
    unfold objectToQueryString
    rw [show qsObject (JSVal.obj entries) "" = qsFields entries "" from rfl,
      qsFields_scalars entries (fun p hp => (hwf p hp).2.2)]
    rfl
  rw [henc, specNormalize_scalar_obj entries (fun p hp => (hwf p hp).2.2)]
  cases entries with
  | nil => exact absurd rfl hne
  | cons e rest =>
      have hdata : (String.intercalate "&" ((e :: rest).map encPairStr)).data =
          encPairChars e ++ (rest.map encPairStr).flatMap (fun q => '&' :: q.data) := by
        rw [List.map_cons, data_intercalate_amp, encPair_data]
      have hke := (hwf e (List.mem_cons_self e rest)).1
      have hgne : encodeURIComponentList e.1.data ≠ [] := enc_ne_nil _ hke
      obtain ⟨c0, t0, h0⟩ : ∃ c0 t0, encodeURIComponentList e.1.data = c0 :: t0 := by
        cases hh : encodeURIComponentList e.1.data with
        | nil => exact absurd hh hgne
        | cons a b => exact ⟨a, b, rfl⟩
      have hc0 : c0 ≠ '?' :=
        (enc_mem_safe e.1.data c0 (by rw [h0]; exact List.mem_cons_self _ _)).2.2
      have hdatacons : (String.intercalate "&" ((e :: rest).map encPairStr)).data =
          c0 :: (t0 ++ '=' :: encodeURIComponentList (scalarString e.2).data ++
            (rest.map encPairStr).flatMap (fun q => '&' :: q.data)) := by
        rw [hdata]
        unfold encPairChars
        rw [h0]
        simp
      have hne2 : String.intercalate "&" ((e :: rest).map encPairStr) ≠ "" := by
        intro h
        have hd := congrArg String.data h
        rw [hdatacons] at hd
        simp at hd
      have hq2 : String.intercalate "&" ((e :: rest).map encPairStr) ≠ "?" := by
        intro h
        have hd := congrArg String.data h
        rw [hdatacons] at hd
        simp at hd
      unfold queryStringToObject
      rw [if_neg (by
        simp only [List.map_cons] at hne2 hq2
        simp [hne2, hq2])]
      rw [if_neg (show ¬((String.intercalate "&"
          ((e :: rest).map encPairStr)).data.head? = some '?') by
        rw [hdatacons]
        simp [hc0])]
      dsimp only
      have hsplit : splitOnChar '&'
          (String.intercalate "&" ((e :: rest).map encPairStr)).data =
          encPairChars e :: (rest.map encPairStr).map String.data := by
        rw [hdata]
        apply splitAmp_join
        · exact encPairChars_no_amp e
        · intro q hq c hc
          obtain ⟨p, hp, rfl⟩ := List.mem_map.mp hq
          rw [encPair_data] at hc
          exact encPairChars_no_amp p c hc
      have hmapdata : (rest.map encPairStr).map String.data =
          rest.map encPairChars := by
        rw [List.map_map]
        exact List.map_congr_left (fun p _ => encPair_data p)
      rw [hsplit, hmapdata]
      rw [show ((encPairChars e :: rest.map encPairChars).filter
          (fun p => !p.isEmpty)) = encPairChars e :: rest.map encPairChars by
        apply List.filter_eq_self.mpr
        intro q hq
        rcases List.mem_cons.mp hq with hq | hq
        · subst hq
          simp [encPairChars_ne_nil e]
        · obtain ⟨p, hp, rfl⟩ := List.mem_map.mp hq
          simp [encPairChars_ne_nil p]]
      rw [show encPairChars e :: rest.map encPairChars =
          (e :: rest).map encPairChars from rfl]
      rw [foldlM_processPair_enc (e :: rest) []
        (fun p hp => ⟨(hwf p hp).1, (hwf p hp).2.1⟩)]
      rw [foldl_update_fresh (e :: rest) [] (fun p _ => rfl) hnd]
      rw [List.nil_append]

/-- C1 (amended): for nonempty flat Mappings with nonempty, bracket-free,
pairwise-distinct keys and scalar (string, number, boolean) values,
decode after encode returns exactly the Mapping with every scalar
replaced by its string form.  The unrestricted claim fails: values that
are null, undefined or empty containers are dropped by the encoder (see
the counterexample), bracket characters in keys are re-interpreted as
path segments, and nested keys go through the tree-assembly rules. -/
theorem roundtrip_after_scalar_normalization :
    ∀ (entries : List (String × JSVal)),
      entries ≠ [] →
      (∀ p ∈ entries, p.1.data ≠ [] ∧
        (∀ c ∈ p.1.data, isBracketChar c = false) ∧ isScalarLeaf p.2 = true) →
      (entries.map Prod.fst).Nodup →
      queryStringToObject (objectToQueryString (JSVal.obj entries) "") =
        .ok (specNormalize (JSVal.obj entries)) :=
  roundtrip_flat_scalar_mappings_aux

/-- C1 counterexample: a Mapping holding an empty Mapping - a nested
container the codec supports - encodes to the empty string, which
decodes to the empty Mapping; scalar normalization leaves the original
untouched, so decode(encode m) is not structurally equal to it. -/
theorem roundtrip_counterexample :
    objectToQueryString (JSVal.obj [("a", JSVal.obj [])]) "" = "" ∧
    queryStringToObject "" = .ok (JSVal.obj []) ∧
    specNormalize (JSVal.obj [("a", JSVal.obj [])]) =
      JSVal.obj [("a", JSVal.obj [])] ∧
    JSVal.obj [] ≠ JSVal.obj [("a", JSVal.obj [])] :=
  ⟨rfl, rfl, rfl, by simp⟩

/-- Witness for C1: the amended round-trip at a two-entry Mapping whose
key and value need percent-escaping and whose second value is numeric. -/
theorem roundtrip_after_scalar_normalization_witness :
    queryStringToObject (objectToQueryString
        (JSVal.obj [("a b", JSVal.str "x&y"), ("c", JSVal.intNum 3)]) "") =
      .ok (specNormalize
        (JSVal.obj [("a b", JSVal.str "x&y"), ("c", JSVal.intNum 3)])) :=
  roundtrip_after_scalar_normalization
    [("a b", JSVal.str "x&y"), ("c", JSVal.intNum 3)]
    (by simp) (by decide) (by decide)
